import Mathlib

/-!
The asynchronous logger of jsdr (`internal/logger/logger.go`).

A shallow embedding of the package `logger` and theorems about it.

The package has one shared object, the `Logger`, a producer side (`Log`, `Logf`,
`SetMaxLevel`, `Close`) and one background goroutine (`outputMessages`) that is the only
reader of the buffered channel `logCh`.  The embedding keeps the state explicit:

* the channel is a FIFO buffer with a capacity and a closed flag, with Go's rules for
  send, receive and close (a send on a full buffer parks the sender, a send on or a close
  of a closed channel panics, a receive on a closed empty channel reports `ok = false`);
* the `io.StringWriter` is a record of the calls it has received;
* the wait group is its counter; the worker goroutine is alive exactly while the counter
  is non-zero (`New` adds one, the worker's `Done` removes it);
* a call of the producer side yields an `Outcome`: it returned, it is parked, or it
  panicked.
-/

namespace logger

/-! ## Levels -/

/-- The Go type `LoggingLevel` is `uint8`; only comparisons are made on it. -/
abbrev LoggingLevel := Nat

def Fatal : LoggingLevel := 1
def Error : LoggingLevel := 2
def Info : LoggingLevel := 3
def Debug : LoggingLevel := 4

/-- The table `LevelsAsStrings [5]string`. -/
def LevelsAsStrings : List String := ["Undefined", "Fatal", "Error", "Info", "Debug"]

/-! ## The part of `fmt.Sprintf` the package uses -/

/-- An argument passed to `fmt.Sprintf`: a string, an `int`, or a `LoggingLevel`. -/
inductive Arg where
  | str (s : String)
  | int (n : Int)
  | level (v : LoggingLevel)
deriving DecidableEq, Repr

/-- The Go type name printed in the diagnostics of `fmt`. -/
def Arg.typeName : Arg → String
  | .str _ => "string"
  | .int _ => "int"
  | .level _ => "logger.LoggingLevel"

/-- The default (`%v`) rendering of an argument. -/
def Arg.render : Arg → String
  | .str s => s
  | .int n => toString n
  | .level v => toString v

/-- One directive `%verb` applied to one argument: `%s` takes a string, `%d` an integer,
`%v` anything; any other pairing gives the `%!verb(type=value)` diagnostic of `fmt`. -/
def formatArg (verb : Char) (a : Arg) : List Char :=
  match verb, a with
  | 'v', a => a.render.data
  | 's', .str s => s.data
  | 'd', .int n => (toString n).data
  | 'd', .level v => (toString v).data
  | c, a => '%' :: '!' :: c :: '(' :: (a.typeName.data ++ '=' :: (a.render.data ++ [')']))

/-- The tail `%!(EXTRA type=value, ...)` for arguments no directive consumed. -/
def extraArgs : List Arg → List Char
  | [] => []
  | a :: rest =>
    "%!(EXTRA ".data ++ (a.typeName.data ++ '=' :: a.render.data)
      ++ (rest.map fun b => ", ".data ++ (b.typeName.data ++ '=' :: b.render.data)).flatten
      ++ [')']

/-- The scan of the format string: plain characters are copied, `%%` is a percent sign,
`%verb` consumes the next argument (`%!verb(MISSING)` when there is none), a lone `%` at
the end is `%!(NOVERB)`.  Flags, widths and precisions are outside this fragment. -/
def sprintfChars : List Char → List Arg → List Char
  | [], args => extraArgs args
  | ['%'], args => "%!(NOVERB)".data ++ extraArgs args
  | '%' :: '%' :: rest, args => '%' :: sprintfChars rest args
  | '%' :: c :: rest, [] => '%' :: '!' :: c :: ("(MISSING)".data ++ sprintfChars rest [])
  | '%' :: c :: rest, a :: args => formatArg c a ++ sprintfChars rest args
  | c :: rest, args => c :: sprintfChars rest args

/-- The function `fmt.Sprintf(format, args...)`. -/
def Sprintf (format : String) (args : List Arg) : String :=
  String.mk (sprintfChars format.data args)

/-! ## The sink -/

/-- What a sink has seen: a `WriteString` it accepted, a `WriteString` it answered with an
error, and the `Close` of the file. -/
inductive SinkEvent where
  | wrote (line : String)
  | refused (line : String)
  | closed
deriving DecidableEq, Repr

/-- The `io.StringWriter` of a `Logger` (a `strings.Builder`, an `os.File`): the calls
it has received in order, whether it has been closed, and whether the destination has
become unwritable. -/
structure Writer where
  events : List SinkEvent
  closed : Bool
  broken : Bool
deriving DecidableEq, Repr

/-- The method `WriteString`: the writer afterwards, and whether the returned `error` is
non-nil.  A closed or unwritable destination takes nothing and reports an error. -/
def Writer.WriteString (w : Writer) (s : String) : Writer × Bool :=
  if w.closed || w.broken then
    ({ w with events := w.events ++ [SinkEvent.refused s] }, true)
  else
    ({ w with events := w.events ++ [SinkEvent.wrote s] }, false)

/-- The method `Close` of `os.File`. -/
def Writer.Close (w : Writer) : Writer :=
  { w with events := w.events ++ [SinkEvent.closed], closed := true }

/-- The lines a sink accepted, in order. -/
def linesOf : List SinkEvent → List String
  | [] => []
  | .wrote s :: rest => s :: linesOf rest
  | _ :: rest => linesOf rest

/-- The content of the sink: the accepted lines, concatenated (what `String()` of a
`strings.Builder` returns). -/
def Writer.content (w : Writer) : String :=
  String.join (linesOf w.events)

/-- A fresh `strings.Builder`. -/
def emptyBuilder : Writer := { events := [], closed := false, broken := false }

/-! ## The channel -/

structure logMessage where
  level : LoggingLevel
  message : String
deriving DecidableEq, Repr

/-- A buffered `chan logMessage`. -/
structure Chan where
  buf : List logMessage
  cap : Nat
  closed : Bool
deriving DecidableEq, Repr

inductive SendResult where
  | sent (c : Chan)
  | parks
  | panics
deriving DecidableEq, Repr

/-- The statement `c <- m`. -/
def Chan.send (c : Chan) (m : logMessage) : SendResult :=
  if c.closed then .panics
  else if c.buf.length < c.cap then .sent { c with buf := c.buf ++ [m] }
  else .parks

inductive RecvResult where
  | got (m : logMessage) (c : Chan)
  | drained
  | parks
deriving DecidableEq, Repr

/-- The statement `msg, ok := <-c`: `got` is `ok = true`, `drained` is `ok = false`. -/
def Chan.recv (c : Chan) : RecvResult :=
  match c.buf with
  | m :: rest => .got m { c with buf := rest }
  | [] => if c.closed then .drained else .parks

/-- The statement `close(c)`; `none` is the panic "close of closed channel". -/
def Chan.close (c : Chan) : Option Chan :=
  if c.closed then none else some { c with closed := true }

/-! ## The logger -/

/-- The struct `Logger`.  `file` is `l.file != nil`; when set, the file is the same
object as `writer` (see `NewFileLogger`). -/
structure Logger where
  writer : Writer
  file : Bool
  waitGroup : Nat
  level : LoggingLevel
  logCh : Chan
deriving DecidableEq, Repr

/-- How a call on the producer side ends: it returned, the calling goroutine is parked
(with the state reached so far), or it panicked. -/
inductive Outcome where
  | returned (l : Logger)
  | parked (l : Logger)
  | panicked (l : Logger) (why : String)
deriving DecidableEq, Repr

def newLogMessage (level : LoggingLevel) (msg : String) : logMessage :=
  { level := level, message := msg }

/-- The function `levelAsString`; `none` is an index out of the range of the table. -/
def levelAsString (level : LoggingLevel) : Option String :=
  if level < Fatal || level > Debug then
    (LevelsAsStrings[0]?).map fun u => Sprintf "%s:%d" [.str u, .level level]
  else
    LevelsAsStrings[level]?

/-- The method `Log`. -/
def Log (l : Logger) (level : LoggingLevel) (message : String) : Outcome :=
  if l.level < level then .returned l
  else
    match l.logCh.send (newLogMessage level message) with
    | .sent c => .returned { l with logCh := c }
    | .parks => .parked l
    | .panics => .panicked l "send on closed channel"

/-- The method `Logf`. -/
def Logf (l : Logger) (level : LoggingLevel) (format : String) (args : List Arg) : Outcome :=
  if l.level < level then .returned l
  else Log l level (Sprintf format args)

/-- The method `SetMaxLevel`. -/
def SetMaxLevel (l : Logger) (level : LoggingLevel) : Outcome :=
  let l1 := { l with level := Info }
  match levelAsString level with
  | none => .panicked l1 "index out of range"
  | some name =>
    match Logf l1 Info "Setting max logging level to '%s'\n" [.str name] with
    | .returned l2 => .returned { l2 with level := level }
    | o => o

/-- One turn of the loop of `outputMessages`. -/
inductive Turn where
  | wrote (l : Logger)
  | exited (l : Logger)
  | parks
  | panics (l : Logger)
deriving DecidableEq, Repr

/-- The body of the `for` loop of `outputMessages`: receive, then either `Done` and
return, or write the rendered line.  The results of `WriteString` are dropped. -/
def outputMessagesTurn (l : Logger) : Turn :=
  match l.logCh.recv with
  | .parks => .parks
  | .drained => .exited { l with waitGroup := l.waitGroup - 1 }
  | .got msg c =>
    match levelAsString msg.level with
    | none => .panics { l with logCh := c }
    | some name =>
      .wrote { l with
        logCh := c,
        writer := (l.writer.WriteString
          (Sprintf "[%s]: %s" [.str name, .str msg.message])).1 }

/-- The loop of `outputMessages`, at most `fuel` turns. -/
def outputMessagesLoop : Nat → Logger → Outcome
  | 0, l => .parked l
  | fuel + 1, l =>
    match outputMessagesTurn l with
    | .parks => .parked l
    | .exited l1 => .returned l1
    | .panics l1 => .panicked l1 "index out of range"
    | .wrote l1 => outputMessagesLoop fuel l1

/-- The goroutine `outputMessages` run for as long as it can go: it returns after
`Done`, or parks on the empty open channel.  One turn per queued record and one more. -/
def outputMessages (l : Logger) : Outcome :=
  outputMessagesLoop (l.logCh.buf.length + 1) l

/-- The function `New`. -/
def New (writer : Writer) : Outcome :=
  SetMaxLevel
    { writer := writer, file := false, waitGroup := 1, level := 0,
      logCh := { buf := [], cap := 100, closed := false } }
    Info

/-- The method `Close`: `close(l.logCh)`, then `Wait`, during which the worker (alive
while the counter is non-zero) is the only goroutine that runs, then the file. -/
def Close (l : Logger) : Outcome :=
  match l.logCh.close with
  | none => .panicked l "close of closed channel"
  | some c =>
    let l1 := { l with logCh := c }
    let afterWait := if l1.waitGroup = 0 then Outcome.returned l1 else outputMessages l1
    match afterWait with
    | .returned l2 =>
      if l2.waitGroup = 0 then
        .returned (if l2.file then { l2 with writer := l2.writer.Close } else l2)
      else .parked l2
    | o => o

/-! ## The producer and the worker side by side -/

/-- A call the producer makes on the logger. -/
inductive Call where
  | log (level : LoggingLevel) (message : String)
  | logf (level : LoggingLevel) (format : String) (args : List Arg)
  | setMaxLevel (level : LoggingLevel)
  | close
deriving DecidableEq, Repr

/-- The logger together with its one producer: the calls the producer has still to
make, whether it is inside `Close` past `close(l.logCh)` and parked in `Wait`, and whether
a panic has ended the process. -/
structure System where
  l : Logger
  calls : List Call
  waiting : Bool
  crashed : Bool
deriving DecidableEq, Repr

inductive Thread where
  | producer
  | worker
deriving DecidableEq, Repr

/-- The effect of a producer call that is retried from the state it parked in. -/
def System.afterCall (s : System) (rest : List Call) : Outcome → System
  | .returned l1 => { s with l := l1, calls := rest }
  | .parked l1 => { s with l := l1 }
  | .panicked l1 _ => { s with l := l1, crashed := true }

/-- The producer runs until its next scheduling point.  A call whose send finds the
queue full leaves the producer parked on it; `Close` is two moves, `close(l.logCh)` and
then the return of `Wait` (possible once the counter is zero) with the file's `Close`. -/
def System.producerStep (s : System) : System :=
  if s.crashed then s
  else
    match s.calls with
    | [] => s
    | .log v t :: rest => s.afterCall rest (Log s.l v t)
    | .logf v f args :: rest => s.afterCall rest (Logf s.l v f args)
    | .setMaxLevel v :: rest => s.afterCall rest (SetMaxLevel s.l v)
    | .close :: rest =>
      if s.waiting then
        if s.l.waitGroup = 0 then
          { s with
            l := if s.l.file then { s.l with writer := s.l.writer.Close } else s.l,
            calls := rest, waiting := false }
        else s
      else
        match s.l.logCh.close with
        | none => { s with crashed := true }
        | some c => { s with l := { s.l with logCh := c }, waiting := true }

/-- The worker goroutine takes one turn of its loop, if it is alive and not parked. -/
def System.workerStep (s : System) : System :=
  if s.crashed || s.l.waitGroup = 0 then s
  else
    match outputMessagesTurn s.l with
    | .parks => s
    | .wrote l1 => { s with l := l1 }
    | .exited l1 => { s with l := l1 }
    | .panics l1 => { s with l := l1, crashed := true }

def System.step (s : System) : Thread → System
  | .producer => s.producerStep
  | .worker => s.workerStep

/-- The system after the scheduler has picked the given threads in turn. -/
def System.run (s : System) (schedule : List Thread) : System :=
  schedule.foldl System.step s

/-- A producer about to make the given calls on the logger `l`. -/
def System.start (l : Logger) (calls : List Call) : System :=
  { l := l, calls := calls, waiting := false, crashed := false }

/-- The schedule that lets the producer and the worker move alternately, `n` times. -/
def alternate : Nat → List Thread
  | 0 => []
  | n + 1 => Thread.producer :: Thread.worker :: alternate n

/-! ## Closed forms used in the statements -/

/-- The writer after a list of `WriteString` calls whose results are dropped. -/
def writeAll (w : Writer) (lines : List String) : Writer :=
  lines.foldl (fun w1 s => (w1.WriteString s).1) w

/-- The level names of the output format: `Fatal`, `Error`, `Info`, `Debug`. -/
def levelName (v : LoggingLevel) : String :=
  if v = 1 then "Fatal" else if v = 2 then "Error" else if v = 3 then "Info"
  else if v = 4 then "Debug" else "Undefined:" ++ toString v

/-- The output line of a record: `[<LevelName>]: <text>`. -/
def lineOf (m : logMessage) : String :=
  "[" ++ levelName m.level ++ "]: " ++ m.message

/-- The records among `msgs` that the level policy admits under the max level `M`:
those with `level <= M`, in order. -/
def admitted (M : LoggingLevel) (msgs : List logMessage) : List logMessage :=
  msgs.filter fun m => decide (m.level ≤ M)

/-- The text of the record by which `SetMaxLevel` announces a level. -/
def announcement (level : LoggingLevel) : String :=
  "Setting max logging level to '" ++ levelName level ++ "'\n"

/-- The state `Close` returns with on a logger whose channel is open and whose worker is
alive. -/
def closedState (l : Logger) : Logger :=
  { l with
    logCh := { l.logCh with buf := [], closed := true },
    waitGroup := 0,
    writer :=
      if l.file then (writeAll l.writer (l.logCh.buf.map lineOf)).Close
      else writeAll l.writer (l.logCh.buf.map lineOf) }

/-- The producer's calls `Log(m.level, m.message)` for the records `msgs`, in order. -/
def logCalls (msgs : List logMessage) : List Call :=
  msgs.map fun m => Call.log m.level m.message

/-- The events a writable sink records for the lines of the given records. -/
def wroteAll (msgs : List logMessage) : List SinkEvent :=
  msgs.map fun m => SinkEvent.wrote (lineOf m)

/-- What is left to do in a system: two per pending call, one per queued record, the
live worker, and one until the producer has entered `Wait`. -/
def System.todo (s : System) : Nat :=
  2 * s.calls.length + s.l.logCh.buf.length + s.l.waitGroup + (if s.waiting then 0 else 1)

/-- The states a system passes through while one producer logs and then closes, for a
sink that is to end up with the events `E`, under the max level `M`, file flag `f`:
the producer still has `Log` calls to make; it is parked in `Wait`; it is done. -/
inductive Phase (E : List SinkEvent) (M : LoggingLevel) (f : Bool) : System → Prop where
  | producing (l : Logger) (rem : List logMessage) :
      l.logCh.closed = false → l.waitGroup = 1 → l.level = M → l.file = f →
      0 < l.logCh.cap → l.writer.closed = false → l.writer.broken = false →
      l.writer.events ++ wroteAll (l.logCh.buf ++ admitted M rem) = E →
      Phase E M f { l := l, calls := logCalls rem ++ [Call.close], waiting := false,
                    crashed := false }
  | waiting (l : Logger) :
      l.logCh.closed = true → l.waitGroup ≤ 1 → (l.waitGroup = 0 → l.logCh.buf = []) →
      l.file = f → l.writer.closed = false → l.writer.broken = false →
      l.writer.events ++ wroteAll l.logCh.buf = E →
      Phase E M f { l := l, calls := [Call.close], waiting := true, crashed := false }
  | done (l : Logger) :
      l.waitGroup = 0 → l.logCh.buf = [] →
      l.writer.events = E ++ (if f then [SinkEvent.closed] else []) →
      Phase E M f { l := l, calls := [], waiting := false, crashed := false }

/-- The calls of the test `TestSetLoggingLevel`, made after `New`. -/
def levelScenario : List Call :=
  [ .log Info "Info message 1",
    .setMaxLevel Error,
    .log Info "Info message 4",
    .logf Error "Error message %d" [.int 1],
    .log Fatal "Fatal message" ]

/-! ## States used as examples -/

/-- The logger that `New` returns over a fresh `strings.Builder`, before the worker has
taken a turn. -/
def freshLogger : Logger :=
  { writer := emptyBuilder, file := false, waitGroup := 1, level := Info,
    logCh :=
      { buf := [{ level := Info, message := "Setting max logging level to 'Info'\n" }],
        cap := 100, closed := false } }

/-- An open logger with the one record of the test `TestLog_UnformattedMessages` queued. -/
def errorQueued : Logger :=
  { writer := emptyBuilder, file := false, waitGroup := 1, level := Info,
    logCh :=
      { buf := [{ level := Error, message := "An error message" }],
        cap := 100, closed := false } }

/-- An open file logger whose file has become unwritable, with two records queued. -/
def brokenSink : Logger :=
  { writer := { events := [], closed := false, broken := true },
    file := true, waitGroup := 1, level := Info,
    logCh :=
      { buf := [{ level := Error, message := "disk full" },
                { level := Fatal, message := "giving up" }],
        cap := 100, closed := false } }

/-- An open file logger with two records queued and one line already written. -/
def fileLogger : Logger :=
  { writer := { events := [.wrote "[Info]: started"], closed := false, broken := false },
    file := true, waitGroup := 1, level := Debug,
    logCh :=
      { buf := [{ level := Debug, message := "a" }, { level := Fatal, message := "b" }],
        cap := 100, closed := false } }

/-! ## Files -/

/-- The part of the package `os` that `NewFileLogger` uses: the standard output stream,
what `os.Create` answers at each path (an error, or the file it opened), and the paths at
which `os.Create` has created or truncated a file so far, in order. -/
structure OS where
  Stdout : Writer
  answer : String → Except String Writer
  created : List String

/-- The function `os.Create`: the file or the error, and the file system afterwards. -/
def OS.Create (os : OS) (name : String) : Except String Writer × OS :=
  match os.answer name with
  | .error e => (.error e, os)
  | .ok file => (.ok file, { os with created := os.created ++ [name] })

/-- The function `strings.ToLower`, on the letters `A` to `Z`; no other character has a
lower case among the letters of `stdout`. -/
def ToLower (s : String) : String :=
  String.mk (s.data.map Char.toLower)

/-- The function `NewFileLogger`: the error of `os.Create` and no logger, or the way
`New` ended on the chosen file, with `l.file` set; and the file system afterwards. -/
def NewFileLogger (os : OS) (f : String) : Except String Outcome × OS :=
  let opened : Except String Writer × OS :=
    if ToLower f = "stdout" then (.ok os.Stdout, os) else os.Create f
  match opened with
  | (.error err, os1) => (.error err, os1)
  | (.ok file, os1) =>
    (.ok (match New file with
          | .returned l => .returned { l with file := true }
          | o => o),
     os1)

/-- The logger that `New` returns over the writer `w`. -/
def newLogger (w : Writer) : Logger :=
  { writer := w, file := false, waitGroup := 1, level := Info,
    logCh := { buf := [{ level := Info, message := announcement Info }], cap := 100,
               closed := false } }

/-- The logger state an outcome carries. -/
def Outcome.state : Outcome → Logger
  | .returned l => l
  | .parked l => l
  | .panicked l _ => l

/-- A file system in which `os.Create` fails under the root directory and succeeds
elsewhere, with nothing created yet. -/
def sampleOS : OS :=
  { Stdout := emptyBuilder,
    answer := fun name =>
      if name.data.head? = some '/' then .error ("open " ++ name ++ ": permission denied")
      else .ok emptyBuilder,
    created := [] }

/-- An open logger whose max level is `Fatal`, with an empty queue. -/
def fatalOnly : Logger :=
  { writer := emptyBuilder, file := false, waitGroup := 1, level := Fatal,
    logCh := { buf := [], cap := 100, closed := false } }

/-- An open logger with two records queued whose levels are outside `Fatal..Debug`. -/
def undefinedQueued : Logger :=
  { writer := emptyBuilder, file := false, waitGroup := 1, level := Info,
    logCh :=
      { buf := [{ level := 0, message := "x" }, { level := 200, message := "y" }],
        cap := 100, closed := false } }

/-- The records `(Info, "0")`, ..., `(Info, "149")`: 150 messages for a queue of 100. -/
def manyMessages : List logMessage :=
  (List.range 150).map fun i => { level := Info, message := toString i }

/-! ## Several producers -/

/-- The logger together with any number of producers that only call `Log`: for each
producer, by its number, the records it has still to submit, in order. -/
structure Crowd where
  l : Logger
  pending : Nat → List logMessage
  crashed : Bool

inductive Actor where
  | producer (i : Nat)
  | worker
deriving DecidableEq, Repr

/-- Producer `i` makes its next `Log` call, or stays parked on it when the queue is
full. -/
def Crowd.producerStep (s : Crowd) (i : Nat) : Crowd :=
  if s.crashed then s
  else
    match s.pending i with
    | [] => s
    | m :: rest =>
      match Log s.l m.level m.message with
      | .returned l1 => { s with l := l1, pending := Function.update s.pending i rest }
      | .parked l1 => { s with l := l1 }
      | .panicked l1 _ => { s with l := l1, crashed := true }

/-- The worker goroutine takes one turn of its loop, if it is alive and not parked. -/
def Crowd.workerStep (s : Crowd) : Crowd :=
  if s.crashed || s.l.waitGroup = 0 then s
  else
    match outputMessagesTurn s.l with
    | .parks => s
    | .wrote l1 => { s with l := l1 }
    | .exited l1 => { s with l := l1 }
    | .panics l1 => { s with l := l1, crashed := true }

def Crowd.step (s : Crowd) : Actor → Crowd
  | .producer i => s.producerStep i
  | .worker => s.workerStep

/-- The crowd after the scheduler has picked the given actors in turn. -/
def Crowd.run (s : Crowd) (schedule : List Actor) : Crowd :=
  schedule.foldl Crowd.step s

/-- Producers `0`, `1`, ... about to submit the given sequences of records to `l`. -/
def Crowd.start (l : Logger) (streams : List (List logMessage)) : Crowd :=
  { l := l, pending := fun i => streams.getD i [], crashed := false }

/-- The lines among `ls` that the classifier `who` attributes to producer `i`. -/
def linesBy (who : String → Nat) (i : Nat) (ls : List String) : List String :=
  ls.filter fun x => decide (who x = i)

/-- The states of a crowd on an open logger with a live worker and a writable sink, in
which every pending record is admitted under the max level `M` and carries the mark of
its producer, and in which, for every producer, its lines written or queued so far
followed by its pending ones are the list `T i`. -/
structure Orderly (who : String → Nat) (M : LoggingLevel) (T : Nat → List String)
    (s : Crowd) : Prop where
  alive : s.crashed = false
  isOpen : s.l.logCh.closed = false
  worker : s.l.waitGroup = 1
  level : s.l.level = M
  room : 0 < s.l.logCh.cap
  notClosed : s.l.writer.closed = false
  notBroken : s.l.writer.broken = false
  allowed : ∀ i m, m ∈ s.pending i → m.level ≤ M
  marked : ∀ i m, m ∈ s.pending i → who (lineOf m) = i
  order : ∀ i, linesBy who i (linesOf s.l.writer.events ++ s.l.logCh.buf.map lineOf)
            ++ (s.pending i).map lineOf = T i

/-- Two producers: the first submits `a` and `aa`, the second `b`. -/
def twoStreams : List (List logMessage) :=
  [[{ level := Info, message := "a" }, { level := Info, message := "aa" }],
   [{ level := Error, message := "b" }]]

/-- The producer a line of `twoStreams` comes from, read off its last character. -/
def lastLetter (x : String) : Nat :=
  if x.data.getLast? = some 'a' then 0 else if x.data.getLast? = some 'b' then 1 else 2

end logger

/-!
The settings of jsdr (`internal/settings/settings.go`).

`Settings` is stored as JSON text through `encoding/json`.  The embedding writes out what
`json.Marshal` produces for this struct, and reads JSON with a decoder for the documents
the struct can take: one object whose members are strings, numbers, `true`, `false` or
`null`.
-/

namespace sdrlogger

/-! The levels of the package `sdrlogger` of go-soapy-sdr, numbered as the name table in
`LoggingLevelAsString` (`internal/soapylogging`) lists them, that table being kept equal
to the definitions of `sdrlogger`. -/

def Fatal : Int := 1
def Critical : Int := 2
def Error : Int := 3
def Warning : Int := 4
def Notice : Int := 5
def Info : Int := 6
def Debug : Int := 7
def Trace : Int := 8
def SSI : Int := 9

end sdrlogger

namespace settings

/-- The struct `Settings`; `LoggingLevel` is an `int64` with the tag
`json:"logging_level,omitempty"`, `Sdr` has no tag. -/
structure Settings where
  LoggingLevel : Int
  Sdr : String
deriving DecidableEq, Repr

/-- The values of the type `int64`. -/
def isInt64 (n : Int) : Prop :=
  -9223372036854775808 ≤ n ∧ n ≤ 9223372036854775807

instance (n : Int) : Decidable (isInt64 n) := by
  unfold isInt64
  infer_instance

/-- The function `NewSettings`. -/
def NewSettings : Settings :=
  { LoggingLevel := sdrlogger.Debug, Sdr := "" }

/-! ## Encoding -/

/-- How `json.Marshal` writes one character of a string: `"` and `\` behind a
backslash, newline, carriage return and tab as `\n`, `\r`, `\t`, the other control
characters and `<`, `>`, `&` as a `\u00XX` escape, the line separators U+2028 and U+2029
as the escapes of these two numbers, every other character as it is. -/
def escapeChar (c : Char) : List Char :=
  if c = '"' then ['\\', '"']
  else if c = '\\' then ['\\', '\\']
  else if c = '\n' then ['\\', 'n']
  else if c = '\r' then ['\\', 'r']
  else if c = '\t' then ['\\', 't']
  else if c.toNat < 32 ∨ c = '<' ∨ c = '>' ∨ c = '&' then
    ['\\', 'u', '0', '0', Nat.digitChar (c.toNat / 16), Nat.digitChar (c.toNat % 16)]
  else if c.toNat = 8232 then ['\\', 'u', '2', '0', '2', '8']
  else if c.toNat = 8233 then ['\\', 'u', '2', '0', '2', '9']
  else [c]

/-- The characters between the quotes of a JSON string. -/
def escape : List Char → List Char
  | [] => []
  | c :: cs => escapeChar c ++ escape cs

/-- A string as `json.Marshal` writes it. -/
def quote (s : String) : List Char :=
  '"' :: (escape s.data ++ ['"'])

/-- An integer in decimal, as `strconv.AppendInt` writes it. -/
def intText : Int → List Char
  | .ofNat k => Nat.toDigits 10 k
  | .negSucc k => '-' :: Nat.toDigits 10 (k + 1)

/-- Why `json.Unmarshal` failed: the text is not valid JSON, a value does not fit the
field it is for, or the text has a nested array or object, which this embedding does not
read. -/
inductive JsonError where
  | invalid
  | mismatch
  | nested
deriving DecidableEq, Repr

/-- The text `json.Marshal` returns for a `Settings`: the fields in the order of the
struct, `logging_level` left out when it is zero (`omitempty`). -/
def marshalText (s : Settings) : List Char :=
  '{' :: ((if s.LoggingLevel = 0 then []
            else "\"logging_level\":".data ++ (intText s.LoggingLevel ++ [','])) ++
          ("\"Sdr\":".data ++ (quote s.Sdr ++ ['}'])))

/-- The method `marshal`: the bytes and the error, which is always nil for this struct. -/
def Settings.marshal (s : Settings) : String × Option JsonError :=
  (String.mk (marshalText s), none)

/-! ## Decoding -/

/-- A member value of the object. -/
inductive JValue where
  | str (s : List Char)
  | int (n : Int)
  | real
  | bool (b : Bool)
  | null
deriving DecidableEq, Repr

def skipWs : List Char → List Char
  | [] => []
  | c :: cs => if c = ' ' ∨ c = '\t' ∨ c = '\n' ∨ c = '\r' then skipWs cs else c :: cs

/-- The value of a hexadecimal digit. -/
def hexVal (c : Char) : Option Nat :=
  if 48 ≤ c.toNat ∧ c.toNat ≤ 57 then some (c.toNat - 48)
  else if 97 ≤ c.toNat ∧ c.toNat ≤ 102 then some (c.toNat - 87)
  else if 65 ≤ c.toNat ∧ c.toNat ≤ 70 then some (c.toNat - 55)
  else none

/-- The character of the escape `\uXXXX`; a value in the surrogate range reads as
U+FFFD (pairs of surrogates are not combined here). -/
def unicodeEscape (a b c d : Char) : Option Char :=
  match hexVal a, hexVal b, hexVal c, hexVal d with
  | some x, some y, some z, some w =>
    let n := ((x * 16 + y) * 16 + z) * 16 + w
    if 55296 ≤ n ∧ n ≤ 57343 then some (Char.ofNat 65533) else some (Char.ofNat n)
  | _, _, _, _ => none

/-- The character of the escape `\e` for a single letter `e`. -/
def simpleEscape (e : Char) : Option Char :=
  if e = '"' then some '"'
  else if e = '\\' then some '\\'
  else if e = '/' then some '/'
  else if e = 'b' then some (Char.ofNat 8)
  else if e = 'f' then some (Char.ofNat 12)
  else if e = 'n' then some '\n'
  else if e = 'r' then some '\r'
  else if e = 't' then some '\t'
  else none

/-- Reads a JSON string from behind its opening quote: the characters it stands for and
the text behind its closing quote. -/
def readString : List Char → Option (List Char × List Char)
  | [] => none
  | c :: rest =>
    if c = '"' then some ([], rest)
    else if c = '\\' then
      match rest with
      | [] => none
      | e :: rest1 =>
        if e = 'u' then
          match rest1 with
          | a :: b :: c1 :: d :: rest2 =>
            match unicodeEscape a b c1 d, readString rest2 with
            | some x, some (s, r) => some (x :: s, r)
            | _, _ => none
          | _ => none
        else
          match simpleEscape e, readString rest1 with
          | some x, some (s, r) => some (x :: s, r)
          | _, _ => none
    else if c.toNat < 32 then none
    else
      match readString rest with
      | some (s, r) => some (c :: s, r)
      | none => none

def isDigit (c : Char) : Bool :=
  decide (48 ≤ c.toNat ∧ c.toNat ≤ 57)

/-- Reads decimal digits onto the number `acc`. -/
def readNat : Nat → List Char → Nat × List Char
  | acc, [] => (acc, [])
  | acc, c :: cs =>
    if isDigit c then readNat (10 * acc + (c.toNat - 48)) cs else (acc, c :: cs)

/-- The text behind a run of digits, and whether the run was not empty. -/
def dropDigits (cs : List Char) : Option (List Char) :=
  match cs with
  | c :: _ => if isDigit c then some (readNat 0 cs).2 else none
  | [] => none

/-- Reads the optional fraction and exponent of a number: whether there was one, and the
text behind it. -/
def readFraction (cs : List Char) : Option (Bool × List Char) :=
  let afterFrac : Option (Bool × List Char) :=
    match cs with
    | '.' :: r => (dropDigits r).map fun r1 => (true, r1)
    | _ => some (false, cs)
  match afterFrac with
  | none => none
  | some (frac, r) =>
    match r with
    | 'e' :: r1 | 'E' :: r1 =>
      (dropDigits (match r1 with
        | '+' :: r2 => r2
        | '-' :: r2 => r2
        | _ => r1)).map fun r3 => (true, r3)
    | _ => some (frac, r)

/-- Reads a JSON number: an optional `-`, digits without a leading zero, an optional
fraction and exponent. -/
def readNumber (cs : List Char) : Except JsonError (JValue × List Char) :=
  let negative : Bool := cs.head? = some '-'
  let ds : List Char := if negative then cs.tail else cs
  match ds with
  | [] => .error .invalid
  | c :: more =>
    if !isDigit c then .error .invalid
    else if c = '0' ∧ (more.head?.map isDigit) = some true then .error .invalid
    else
      match readFraction (readNat 0 ds).2 with
      | none => .error .invalid
      | some (true, r) => .ok (.real, r)
      | some (false, r) =>
        .ok (.int (if negative then - ((readNat 0 ds).1 : Int) else ((readNat 0 ds).1 : Int)), r)

/-- Reads a member value: a string, a number, `true`, `false` or `null`. -/
def readValue (cs : List Char) : Except JsonError (JValue × List Char) :=
  match cs with
  | [] => .error .invalid
  | c :: rest =>
    if c = '"' then
      match readString rest with
      | some (s, r) => .ok (.str s, r)
      | none => .error .invalid
    else if c = '{' ∨ c = '[' then .error .nested
    else if c = '-' ∨ isDigit c = true then readNumber cs
    else if "true".data.isPrefixOf cs then .ok (.bool true, cs.drop 4)
    else if "false".data.isPrefixOf cs then .ok (.bool false, cs.drop 5)
    else if "null".data.isPrefixOf cs then .ok (.null, cs.drop 4)
    else .error .invalid

/-- Reads the members of an object from behind `{` or `,`, up to and with the closing
`}`; one unit of fuel per member. -/
def readMembers : Nat → List Char → List (List Char × JValue) →
    Except JsonError (List (List Char × JValue) × List Char)
  | 0, _, _ => .error .invalid
  | fuel + 1, cs, acc =>
    match skipWs cs with
    | '"' :: r1 =>
      match readString r1 with
      | none => .error .invalid
      | some (k, r2) =>
        match skipWs r2 with
        | ':' :: r3 =>
          match readValue (skipWs r3) with
          | .error e => .error e
          | .ok (v, r4) =>
            match skipWs r4 with
            | ',' :: r5 => readMembers fuel r5 (acc ++ [(k, v)])
            | '}' :: r5 => .ok (acc ++ [(k, v)], r5)
            | _ => .error .invalid
        | _ => .error .invalid
    | _ => .error .invalid

/-- Reads a whole document: the members of its object, in order; `none` for the document
`null`. -/
def readDocument (cs : List Char) : Except JsonError (Option (List (List Char × JValue))) :=
  match skipWs cs with
  | '{' :: r =>
    match skipWs r with
    | '}' :: r1 => if skipWs r1 = [] then .ok (some []) else .error .invalid
    | _ =>
      match readMembers (r.length + 1) r [] with
      | .error e => .error e
      | .ok (ms, r1) => if skipWs r1 = [] then .ok (some ms) else .error .invalid
  | '[' :: _ => .error .nested
  | r =>
    match readValue r with
    | .error e => .error e
    | .ok (v, r1) =>
      if skipWs r1 = [] then (if v = .null then .ok none else .error .mismatch)
      else .error .invalid

/-- The form of a member name under which `encoding/json` compares it with the field
names: letters in lower case, the long s and the Kelvin sign as `s` and `k`. -/
def foldName (k : List Char) : List Char :=
  k.map fun c =>
    if c.toNat = 383 then 's' else if c.toNat = 8490 then 'k' else c.toLower

/-- Stores one member into the struct.  A value of the wrong kind for its field leaves
the field as it is and is remembered as an error, the first such error being the one
reported; `null` and members with other names are passed over. -/
def setField (acc : Settings × Option JsonError) (member : List Char × JValue) :
    Settings × Option JsonError :=
  let wrong : Settings × Option JsonError := (acc.1, acc.2.orElse fun _ => some .mismatch)
  if foldName member.1 = "logging_level".data then
    match member.2 with
    | .int n => if isInt64 n then ({ acc.1 with LoggingLevel := n }, acc.2) else wrong
    | .null => acc
    | _ => wrong
  else if foldName member.1 = "sdr".data then
    match member.2 with
    | .str t => ({ acc.1 with Sdr := String.mk t }, acc.2)
    | .null => acc
    | _ => wrong
  else acc

/-- The function `json.Unmarshal(data, s)`: the struct afterwards and the error.  Text
that is not valid JSON leaves the struct untouched. -/
def jsonUnmarshal (data : String) (s : Settings) : Settings × Option JsonError :=
  match readDocument data.data with
  | .error e => (s, some e)
  | .ok none => (s, none)
  | .ok (some ms) => ms.foldl setField (s, none)

/-- The method `Unmarshal`. -/
def Settings.Unmarshal (s : Settings) (data : String) : Settings × Option JsonError :=
  if data.length = 0 then (s, none)
  else jsonUnmarshal data s

/-! ## The settings file -/

/-- What the operating system answers while `Load` runs: the error of `os.Open`, of
`os.Stat` and of `file.Read`, if any, and the buffer `data`, of the size of the file, as
`file.Read` left it. -/
structure SettingsFile where
  openError : Option String
  statError : Option String
  readError : Option String
  data : String
deriving DecidableEq, Repr

/-- The method `Load`: the struct afterwards and the error returned.  The result of
`s.Unmarshal(data)` is dropped. -/
def Settings.Load (s : Settings) (f : SettingsFile) : Settings × Option String :=
  match f.openError with
  | some err => (s, some err)
  | none =>
    match f.statError with
    | some err => (s, some err)
    | none =>
      match f.readError with
      | some err => (s, some err)
      | none => ((s.Unmarshal f.data).1, none)

/-- The function `strings.HasPrefix`. -/
def HasPrefix (s p : String) : Bool :=
  p.data.isPrefixOf s.data

end settings

/-!
The logging of SoapySDR messages (`internal/soapylogging/soapy_logging.go`).
-/

namespace soapylogging

/-- The table `levelStr` of `LoggingLevelAsString`. -/
def levelStr : List String :=
  ["Unknown", "Fatal", "Critical", "Error", "Warning", "Notice", "Info", "Debug", "Trace",
    "SSI"]

/-- The function `LoggingLevelAsString`, on a level of the integer type `SDRLogLevel`;
`none` is an index out of the range of the table. -/
def LoggingLevelAsString (level : Int) : Option String :=
  if level ≥ 0 ∧ level ≤ sdrlogger.SSI then levelStr[level.toNat]? else some "Unknown"

/-- The file system as `CreateSoapyLogFile` meets it: the error `os.Create` gives at a
path, the error `Close` gives for the file created at a path, and the paths created or
truncated so far, in order. -/
structure Files where
  createError : String → Option String
  closeError : String → Option String
  created : List String

/-- The package variable `loggingFileName`, and the file system. -/
structure State where
  loggingFileName : String
  files : Files

/-- The function `CreateSoapyLogFile`: the state afterwards and the error. -/
def CreateSoapyLogFile (st : State) : State × Option String :=
  match st.files.createError st.loggingFileName with
  | some err => (st, some err)
  | none =>
    let st1 : State :=
      { st with files := { st.files with created := st.files.created ++ [st.loggingFileName] } }
    match st.files.closeError st.loggingFileName with
    | some err => (st1, some err)
    | none => (st1, none)

/-- The function `ChangeLoggingFileName`. -/
def ChangeLoggingFileName (st : State) (newFileName : String) : State × Option String :=
  CreateSoapyLogFile { st with loggingFileName := newFileName }

/-- A state in which files cannot be created directly under the root directory, as for
the user that runs the test `TestChangeLoggingFileName`. -/
def sampleState : State :=
  { loggingFileName := "/home/user/jsdr.log",
    files :=
      { createError := fun name =>
          if name.data.head? = some '/' ∧ !(name.data.tail.contains '/') then
            some ("open " ++ name ++ ": permission denied")
          else none,
        closeError := fun _ => none,
        created := [] } }

end soapylogging

/-!
The device wrapper (`internal/sdr/soapydevice.go`).
-/

namespace sdr

/-- The type `map[string]string` of device arguments. -/
abbrev Args := List (String × String)

/-- The struct `Sdr`: the handle of the device of go-soapy-sdr, and the arguments it was
made with. -/
structure Sdr where
  Device : Nat
  DeviceProperties : Args
deriving DecidableEq, Repr

/-- The struct `SoapyDevice`; `none` is the nil pointer. -/
structure SoapyDevice where
  Device : Option Sdr
deriving DecidableEq, Repr

/-- The library go-soapy-sdr as `Make` and `Unmake` use it: what `device.Make` answers to
given arguments, and the error, if any, of `Unmake` on a device. -/
structure Library where
  make : Args → Except String Nat
  unmake : Nat → Option String

/-- The method `Make`: the wrapper afterwards and the error returned. -/
def SoapyDevice.Make (sD : SoapyDevice) (lib : Library) (args : Args) :
    SoapyDevice × Option String :=
  match lib.make args with
  | .ok dev => ({ Device := some { Device := dev, DeviceProperties := args } }, none)
  | .error err => (sD, some err)

/-- The method `Unmake`: the wrapper afterwards and the error returned. -/
def SoapyDevice.Unmake (sD : SoapyDevice) (lib : Library) : SoapyDevice × Option String :=
  match sD.Device with
  | none => (sD, some "attempted to Unmake an SDR that was not successfully created")
  | some held =>
    match lib.unmake held.Device with
    | none => ({ Device := none }, none)
    | some err => (sD, some err)

/-- A library with one device, number 7, made for the driver `rtlsdr` only, which can
always be unmade. -/
def sampleLibrary : Library :=
  { make := fun args =>
      if args = [("driver", "rtlsdr")] then .ok 7 else .error "no match",
    unmake := fun _ => none }

end sdr

/-!
The command line of jsdr (`cmd/jsdr/main.go`).
-/

namespace jsdr

/-- The values of the command line flags after `pflag.Parse`, as `viper` returns them. -/
structure Flags where
  error : Bool
  info : Bool
  debug : Bool
  out : String
deriving DecidableEq, Repr

/-- The function `parseCommandLine`. -/
def parseCommandLine (flags : Flags) : logger.LoggingLevel × String :=
  let logLevel0 := logger.Fatal
  let logLevel1 := if flags.error then logger.Error else logLevel0
  let logLevel2 := if flags.info then logger.Info else logLevel1
  let logLevel3 := if flags.debug then logger.Debug else logLevel2
  (logLevel3, flags.out)

/-- The levels the help text of each flag lists: `error` "Log fatal and error messages",
`info` "Log fatal, error, and info messages", `debug` "Log fatal, error, info, and debug
messages"; without a flag the level stays `Fatal`. -/
def listedLevels (flags : Flags) : List logger.LoggingLevel :=
  if flags.debug then [logger.Fatal, logger.Error, logger.Info, logger.Debug]
  else if flags.info then [logger.Fatal, logger.Error, logger.Info]
  else if flags.error then [logger.Fatal, logger.Error]
  else [logger.Fatal]

end jsdr

/-!
The window for the logging level (`internal/jsdrgui/logging_props_window.go`).
-/

namespace jsdrgui

/-- The widget `Select` of fyne, as far as the window uses it: its options and the
selected option (the empty string when nothing is selected). -/
structure Select where
  Options : List String
  Selected : String
deriving DecidableEq, Repr

/-- The function `widget.NewSelect`. -/
def NewSelect (options : List String) : Select :=
  { Options := options, Selected := "" }

/-- The method `SetSelectedIndex`: an index outside the options is ignored. -/
def Select.SetSelectedIndex (s : Select) (index : Int) : Select :=
  if index < 0 ∨ index ≥ s.Options.length then s
  else { s with Selected := s.Options.getD index.toNat "" }

/-- The method `SelectedIndex`: the position of the first option equal to the selected
one, or -1. -/
def Select.SelectedIndex (s : Select) : Int :=
  if s.Options.indexOf s.Selected < s.Options.length then (s.Options.indexOf s.Selected : Nat)
  else -1

/-- The options of `loggingLevelSelect`. -/
def levelOptions : List String :=
  ["Fatal", "Critical", "Error", "Warning", "Notice", "Info", "Debug", "Trace", "SSI"]

/-- The package variables the window works on: `settings.JsdrSettings` and
`loggingLevelSelect`. -/
structure Gui where
  JsdrSettings : settings.Settings
  loggingLevelSelect : Select
deriving DecidableEq, Repr

/-- The function `newSDRLoggerSettingsWindow`, as to the select list. -/
def newSDRLoggerSettingsWindow (g : Gui) : Gui :=
  { g with
    loggingLevelSelect :=
      (NewSelect levelOptions).SetSelectedIndex (g.JsdrSettings.LoggingLevel - 1) }

/-- The function `acceptChanges`, as to the settings. -/
def acceptChanges (g : Gui) : Gui :=
  { g with
    JsdrSettings := { g.JsdrSettings with
      LoggingLevel := g.loggingLevelSelect.SelectedIndex + 1 } }

/-- The function `resetLoggingValues`, as to the select list. -/
def resetLoggingValues (g : Gui) : Gui :=
  { g with
    loggingLevelSelect :=
      g.loggingLevelSelect.SetSelectedIndex (g.JsdrSettings.LoggingLevel - 1) }

end jsdrgui

/-!
The stream exercise of the enumeration tool (`cmd/enumerate_sdrs/main.go`).
-/

namespace enumerate_sdrs

/-- The indices the loop `for j := 0; j < 7; j = j + 2` of `exerciseStream0` reads from
`buffers[0]`, in order, from the value `j` on; at most `fuel` rounds. -/
def firstLoop : Nat → Int → List Int
  | 0, _ => []
  | fuel + 1, j => if j < 7 then 2 * j :: (2 * j + 1) :: firstLoop fuel (j + 2) else []

/-- The indices the loop `for j := mtu - 1; j > mtu-9; j = j - 2` reads from
`buffers[0]`, in order, from the value `j` on; at most `fuel` rounds. -/
def secondLoop (mtu : Int) : Nat → Int → List Int
  | 0, _ => []
  | fuel + 1, j =>
    if j > mtu - 9 then (2 * j - 1) :: 2 * j :: secondLoop mtu fuel (j - 2) else []

/-- All indices one round of the read loop uses on `buffers[0]`; each of the two loops
makes four rounds, the fuel is not used up. -/
def dumpIndices (mtu : Int) : List Int :=
  firstLoop 8 0 ++ secondLoop mtu 8 (mtu - 1)

/-- An index within `buffers[0]`, which `make([]int8, 2*mtu)` gave the length `2*mtu`. -/
def inBuffer (mtu i : Int) : Prop :=
  0 ≤ i ∧ i < 2 * mtu

instance (mtu i : Int) : Decidable (inBuffer mtu i) := by
  unfold inBuffer
  infer_instance

end enumerate_sdrs


namespace logger

/-! ## Rendering -/

theorem sprintf_undefined (v : Nat) :
    Sprintf "%s:%d" [.str "Undefined", .level v] = "Undefined:" ++ toString v := by
  apply String.ext
  simp [Sprintf, sprintfChars, formatArg, extraArgs]

theorem levelAsString_eq (v : Nat) : levelAsString v = some (levelName v) := by
  by_cases h : v < 1 ∨ v > 4
  · have h1 : levelName v = "Undefined:" ++ toString v := by
      have e1 : v ≠ 1 := by omega
      have e2 : v ≠ 2 := by omega
      have e3 : v ≠ 3 := by omega
      have e4 : v ≠ 4 := by omega
      simp [levelName, e1, e2, e3, e4]
    have h2 : (decide (v < Fatal) || decide (v > Debug)) = true := by
      simp only [Fatal, Debug, Bool.or_eq_true, decide_eq_true_eq]; exact h
    simp only [levelAsString, h2, if_true, LevelsAsStrings, h1]
    simp [sprintf_undefined]
  · have h3 : v = 1 ∨ v = 2 ∨ v = 3 ∨ v = 4 := by omega
    rcases h3 with h3 | h3 | h3 | h3 <;> subst h3 <;> decide

theorem sprintf_line (n t : String) :
    Sprintf "[%s]: %s" [.str n, .str t] = "[" ++ n ++ "]: " ++ t := by
  apply String.ext
  simp [Sprintf, sprintfChars, formatArg, extraArgs]

theorem sprintf_announcement (n : String) :
    Sprintf "Setting max logging level to '%s'\n" [.str n]
      = "Setting max logging level to '" ++ n ++ "'\n" := by
  apply String.ext
  simp [Sprintf, sprintfChars, formatArg, extraArgs]

/-! ## The calls, one at a time -/

theorem Log_dropped (l : Logger) (v : Nat) (t : String) (h : l.level < v) :
    Log l v t = .returned l := by
  simp [Log, h]

theorem Log_sent (l : Logger) (v : Nat) (t : String) (h : v ≤ l.level)
    (hopen : l.logCh.closed = false) (hfree : l.logCh.buf.length < l.logCh.cap) :
    Log l v t = .returned
      { l with logCh := { l.logCh with buf := l.logCh.buf ++ [{ level := v, message := t }] } } := by
  have h1 : ¬ l.level < v := Nat.not_lt.mpr h
  simp [Log, h1, Chan.send, hopen, hfree, newLogMessage]

theorem Log_parked (l : Logger) (v : Nat) (t : String) (h : v ≤ l.level)
    (hopen : l.logCh.closed = false) (hfull : l.logCh.cap ≤ l.logCh.buf.length) :
    Log l v t = .parked l := by
  have h1 : ¬ l.level < v := Nat.not_lt.mpr h
  have h2 : ¬ l.logCh.buf.length < l.logCh.cap := Nat.not_lt.mpr hfull
  simp [Log, h1, Chan.send, hopen, h2]

theorem Log_closed (l : Logger) (v : Nat) (t : String) (h : v ≤ l.level)
    (hclosed : l.logCh.closed = true) :
    Log l v t = .panicked l "send on closed channel" := by
  have h1 : ¬ l.level < v := Nat.not_lt.mpr h
  simp [Log, h1, Chan.send, hclosed]

theorem Logf_eq (l : Logger) (v : Nat) (f : String) (args : List Arg) :
    Logf l v f args = Log l v (Sprintf f args) := by
  unfold Logf
  split
  · next h => simp [Log, h]
  · rfl

theorem SetMaxLevel_eq (l : Logger) (v : Nat) :
    SetMaxLevel l v =
      match Log { l with level := Info } Info (announcement v) with
      | .returned l2 => .returned { l2 with level := v }
      | o => o := by
  simp only [SetMaxLevel, levelAsString_eq, Logf_eq, sprintf_announcement, announcement]

theorem SetMaxLevel_sent (l : Logger) (v : Nat)
    (hopen : l.logCh.closed = false) (hfree : l.logCh.buf.length < l.logCh.cap) :
    SetMaxLevel l v = .returned
      { l with
        level := v,
        logCh := { l.logCh with
          buf := l.logCh.buf ++ [{ level := Info, message := announcement v }] } } := by
  rw [SetMaxLevel_eq, Log_sent { l with level := Info } Info _ (Nat.le_refl _) hopen hfree]

/-! ## The worker -/

theorem turn_cons (l : Logger) (m : logMessage) (rest : List logMessage)
    (h : l.logCh.buf = m :: rest) :
    outputMessagesTurn l = .wrote
      { l with
        logCh := { l.logCh with buf := rest },
        writer := (l.writer.WriteString (lineOf m)).1 } := by
  simp [outputMessagesTurn, Chan.recv, h, levelAsString_eq, sprintf_line, lineOf]

theorem turn_nil_open (l : Logger) (h : l.logCh.buf = []) (hopen : l.logCh.closed = false) :
    outputMessagesTurn l = .parks := by
  simp [outputMessagesTurn, Chan.recv, h, hopen]

theorem turn_nil_closed (l : Logger) (h : l.logCh.buf = []) (hc : l.logCh.closed = true) :
    outputMessagesTurn l = .exited { l with waitGroup := l.waitGroup - 1 } := by
  simp [outputMessagesTurn, Chan.recv, h, hc]

theorem writeAll_cons (w : Writer) (s : String) (rest : List String) :
    writeAll w (s :: rest) = writeAll (w.WriteString s).1 rest := rfl

theorem writeAll_append (w : Writer) (xs ys : List String) :
    writeAll w (xs ++ ys) = writeAll (writeAll w xs) ys := by
  simp [writeAll, List.foldl_append]

/-- The loop with enough fuel writes every queued record in order and then stops: it
returns after `Done` when the channel is closed, and parks when it is open. -/
theorem loop_drains (q : List logMessage) :
    ∀ (fuel : Nat) (l : Logger), l.logCh.buf = q → q.length < fuel →
      outputMessagesLoop fuel l =
        if l.logCh.closed then
          .returned { l with
            logCh := { l.logCh with buf := [] },
            writer := writeAll l.writer (q.map lineOf),
            waitGroup := l.waitGroup - 1 }
        else
          .parked { l with
            logCh := { l.logCh with buf := [] },
            writer := writeAll l.writer (q.map lineOf) } := by
  induction q with
  | nil =>
    intro fuel l hq hf
    obtain ⟨n, rfl⟩ : ∃ n, fuel = n + 1 := ⟨fuel - 1, by simp at hf; omega⟩
    cases hc : l.logCh.closed
    · simp only [outputMessagesLoop, turn_nil_open l hq hc]
      obtain ⟨w, f, wg, lv, ⟨b, c, cl⟩⟩ := l
      simp only at hq hc
      subst hq hc
      simp [writeAll]
    · simp only [outputMessagesLoop, turn_nil_closed l hq hc]
      obtain ⟨w, f, wg, lv, ⟨b, c, cl⟩⟩ := l
      simp only at hq hc
      subst hq hc
      simp [writeAll]
  | cons m rest ih =>
    intro fuel l hq hf
    obtain ⟨n, rfl⟩ : ∃ n, fuel = n + 1 := ⟨fuel - 1, by simp at hf; omega⟩
    simp only [outputMessagesLoop, turn_cons l m rest hq]
    rw [ih n _ rfl (by simp at hf; omega)]
    simp [writeAll_cons]

theorem outputMessages_drains (l : Logger) :
    outputMessages l =
      if l.logCh.closed then
        .returned { l with
          logCh := { l.logCh with buf := [] },
          writer := writeAll l.writer (l.logCh.buf.map lineOf),
          waitGroup := l.waitGroup - 1 }
      else
        .parked { l with
          logCh := { l.logCh with buf := [] },
          writer := writeAll l.writer (l.logCh.buf.map lineOf) } :=
  loop_drains l.logCh.buf _ l rfl (Nat.lt_succ_self _)

theorem Close_open (l : Logger) (hopen : l.logCh.closed = false) (hw : l.waitGroup = 1) :
    Close l = .returned (closedState l) := by
  simp only [Close, Chan.close, hopen, outputMessages_drains, hw]
  cases hf : l.file <;> simp [closedState, hf]

theorem Close_closed (l : Logger) (hc : l.logCh.closed = true) :
    Close l = .panicked l "close of closed channel" := by
  simp [Close, Chan.close, hc]

theorem Close_returned_closed (l l1 : Logger) (h : Close l = .returned l1) :
    l1.logCh.closed = true := by
  cases hc : l.logCh.closed
  · simp only [Close, Chan.close, hc, outputMessages_drains] at h
    by_cases hw : l.waitGroup = 0
    · simp [hw] at h
      split at h <;> (rw [← h])
    · simp [hw] at h
      split at h
      · simp at h
        split at h <;> (rw [← h])
      · simp at h
  · rw [Close_closed l hc] at h
    simp at h

/-! ## The sink -/

theorem linesOf_append (a b : List SinkEvent) : linesOf (a ++ b) = linesOf a ++ linesOf b := by
  induction a with
  | nil => rfl
  | cons e rest ih => cases e <;> simp [linesOf, ih]

theorem linesOf_wrote (ls : List String) : linesOf (ls.map SinkEvent.wrote) = ls := by
  induction ls with
  | nil => rfl
  | cons x rest ih => simp [linesOf, ih]

theorem join_append (a b : List String) : String.join (a ++ b) = String.join a ++ String.join b := by
  apply String.ext
  simp [String.data_join]

/-- A writable sink accepts every line of a run of writes, in order, and stays
writable. -/
theorem writeAll_healthy (ls : List String) :
    ∀ w : Writer, w.closed = false → w.broken = false →
      writeAll w ls = { w with events := w.events ++ ls.map SinkEvent.wrote } := by
  induction ls with
  | nil => intro w _ _; simp [writeAll]
  | cons x rest ih =>
    intro w hc hb
    have h1 : (w.WriteString x).1 = { w with events := w.events ++ [SinkEvent.wrote x] } := by
      simp [Writer.WriteString, hc, hb]
    rw [writeAll_cons, h1, ih { w with events := w.events ++ [SinkEvent.wrote x] } hc hb]
    simp

/-- An unwritable sink refuses every line of a run of writes. -/
theorem writeAll_broken (ls : List String) :
    ∀ w : Writer, w.broken = true →
      writeAll w ls = { w with events := w.events ++ ls.map SinkEvent.refused } := by
  induction ls with
  | nil => intro w _; simp [writeAll]
  | cons x rest ih =>
    intro w hb
    have h1 : (w.WriteString x).1 = { w with events := w.events ++ [SinkEvent.refused x] } := by
      simp [Writer.WriteString, hb]
    rw [writeAll_cons, h1, ih { w with events := w.events ++ [SinkEvent.refused x] } hb]
    simp

theorem New_fresh : New emptyBuilder = .returned freshLogger := by decide

/-! ## One producer and the worker, under any schedule -/

theorem admitted_cons_le (M : Nat) (m : logMessage) (rest : List logMessage)
    (h : m.level ≤ M) : admitted M (m :: rest) = m :: admitted M rest := by
  simp [admitted, h]

theorem admitted_cons_gt (M : Nat) (m : logMessage) (rest : List logMessage)
    (h : M < m.level) : admitted M (m :: rest) = admitted M rest := by
  have h1 : ¬ m.level ≤ M := Nat.not_le.mpr h
  simp [admitted, h1]

theorem wroteAll_append (a b : List logMessage) : wroteAll (a ++ b) = wroteAll a ++ wroteAll b := by
  simp [wroteAll]

/-- What the producer's next move does in each phase. -/
theorem producer_move {E : List SinkEvent} {M : Nat} {f : Bool} {s : System}
    (h : Phase E M f s) :
    Phase E M f s.producerStep ∧
      (s.producerStep.todo < s.todo ∨
        (s.producerStep = s ∧ (s.calls = [] ∨ (s.l.logCh.buf ≠ [] ∧ s.l.waitGroup = 1)
          ∨ (s.waiting = true ∧ s.l.waitGroup = 1)))) := by
  cases h with
  | producing l rem hopen hw hlv hf hcap hc hb hE =>
    cases rem with
    | nil =>
      have e : System.producerStep
          { l := l, calls := logCalls [] ++ [Call.close], waiting := false, crashed := false }
          = { l := { l with logCh := { l.logCh with closed := true } },
              calls := [Call.close], waiting := true, crashed := false } := by
        simp [System.producerStep, Chan.close, hopen, logCalls]
      rw [e]
      refine ⟨Phase.waiting _ rfl (Nat.le_of_eq hw) (fun h0 => ?_) hf hc hb ?_, Or.inl ?_⟩
      · simp [hw] at h0
      · simpa [admitted] using hE
      · simp [System.todo, logCalls]
    | cons m rem1 =>
      have hcalls : logCalls (m :: rem1) ++ [Call.close]
          = Call.log m.level m.message :: (logCalls rem1 ++ [Call.close]) := by
        simp [logCalls]
      rw [hcalls]
      rcases Nat.lt_or_ge l.level m.level with hv | hv
      · -- the record is filtered out
        have e : System.producerStep
            { l := l, calls := Call.log m.level m.message :: (logCalls rem1 ++ [Call.close]),
              waiting := false, crashed := false }
            = { l := l, calls := logCalls rem1 ++ [Call.close], waiting := false,
                crashed := false } := by
          simp [System.producerStep, System.afterCall, Log_dropped l _ _ hv]
        rw [e]
        refine ⟨Phase.producing l rem1 hopen hw hlv hf hcap hc hb ?_, Or.inl ?_⟩
        · rw [← hE, admitted_cons_gt M m rem1 (hlv ▸ hv)]
        · simp [System.todo]
      · rcases Nat.lt_or_ge l.logCh.buf.length l.logCh.cap with hfree | hfull
        · -- the record is queued
          have e : System.producerStep
              { l := l, calls := Call.log m.level m.message :: (logCalls rem1 ++ [Call.close]),
                waiting := false, crashed := false }
              = { l := { l with logCh := { l.logCh with buf := l.logCh.buf ++ [m] } },
                  calls := logCalls rem1 ++ [Call.close], waiting := false,
                  crashed := false } := by
            simp [System.producerStep, System.afterCall, Log_sent l _ _ hv hopen hfree]
          rw [e]
          refine ⟨Phase.producing _ rem1 hopen hw hlv hf hcap hc hb ?_, Or.inl ?_⟩
          · rw [← hE, admitted_cons_le M m rem1 (hlv ▸ hv)]
            simp
          · simp [System.todo]; omega
        · -- the queue is full: the producer stays parked on the send
          have e : System.producerStep
              { l := l, calls := Call.log m.level m.message :: (logCalls rem1 ++ [Call.close]),
                waiting := false, crashed := false }
              = { l := l, calls := Call.log m.level m.message :: (logCalls rem1 ++ [Call.close]),
                  waiting := false, crashed := false } := by
            simp [System.producerStep, System.afterCall, Log_parked l _ _ hv hopen hfull]
          rw [e]
          refine ⟨?_, Or.inr ⟨rfl, Or.inr (Or.inl ⟨?_, hw⟩)⟩⟩
          · rw [← hcalls]
            exact Phase.producing l (m :: rem1) hopen hw hlv hf hcap hc hb hE
          · intro h0
            rw [h0] at hfull
            exact absurd hfull (Nat.not_le.mpr hcap)
  | waiting l hclosed hw h0 hf hc hb hE =>
    rcases Nat.eq_zero_or_pos l.waitGroup with hz | hp
    · have e : System.producerStep
          { l := l, calls := [Call.close], waiting := true, crashed := false }
          = { l := if l.file then { l with writer := l.writer.Close } else l,
              calls := [], waiting := false, crashed := false } := by
        simp [System.producerStep, hz]
      rw [e]
      refine ⟨Phase.done _ ?_ ?_ ?_, Or.inl ?_⟩
      · cases l.file <;> simp [hz]
      · cases l.file <;> simp [h0 hz]
      · rw [← hE, h0 hz, ← hf]
        cases l.file <;> simp [Writer.Close, wroteAll]
      · cases l.file <;> simp [System.todo] <;> omega
    · have hne : l.waitGroup ≠ 0 := Nat.pos_iff_ne_zero.mp hp
      have e : System.producerStep
          { l := l, calls := [Call.close], waiting := true, crashed := false }
          = { l := l, calls := [Call.close], waiting := true, crashed := false } := by
        simp [System.producerStep, hne]
      rw [e]
      exact ⟨Phase.waiting l hclosed hw h0 hf hc hb hE,
        Or.inr ⟨rfl, Or.inr (Or.inr ⟨rfl, by simp only; omega⟩)⟩⟩
  | done l hz hbuf hE =>
    have e : System.producerStep { l := l, calls := [], waiting := false, crashed := false }
        = { l := l, calls := [], waiting := false, crashed := false } := by
      simp [System.producerStep]
    rw [e]
    exact ⟨Phase.done l hz hbuf hE, Or.inr ⟨rfl, Or.inl rfl⟩⟩

/-- What the worker's next turn does in each phase. -/
theorem worker_move {E : List SinkEvent} {M : Nat} {f : Bool} {s : System}
    (h : Phase E M f s) :
    Phase E M f s.workerStep ∧ s.workerStep.todo ≤ s.todo ∧
      (((s.l.logCh.buf ≠ [] ∧ s.l.waitGroup = 1) ∨ (s.waiting = true ∧ s.l.waitGroup = 1)) →
        s.workerStep.todo < s.todo) ∧
      (s.calls = [] → s.workerStep = s) := by
  cases h with
  | producing l rem hopen hw hlv hf hcap hc hb hE =>
    have hne : l.waitGroup ≠ 0 := by rw [hw]; decide
    cases hbuf : l.logCh.buf with
    | nil =>
      have e : System.workerStep
          { l := l, calls := logCalls rem ++ [Call.close], waiting := false, crashed := false }
          = { l := l, calls := logCalls rem ++ [Call.close], waiting := false,
              crashed := false } := by
        simp [System.workerStep, hne, turn_nil_open l hbuf hopen]
      rw [e]
      refine ⟨Phase.producing l rem hopen hw hlv hf hcap hc hb hE, Nat.le_refl _, ?_, ?_⟩
      · intro hcase
        rcases hcase with ⟨h1, _⟩ | ⟨h1, _⟩
        · exact absurd rfl h1
        · simp at h1
      · intro _; rfl
    | cons m rest =>
      have e : System.workerStep
          { l := l, calls := logCalls rem ++ [Call.close], waiting := false, crashed := false }
          = { l := { l with
                logCh := { l.logCh with buf := rest },
                writer := { l.writer with
                  events := l.writer.events ++ [SinkEvent.wrote (lineOf m)] } },
              calls := logCalls rem ++ [Call.close], waiting := false, crashed := false } := by
        simp [System.workerStep, hne, turn_cons l m rest hbuf, Writer.WriteString, hc, hb]
      rw [e]
      refine ⟨Phase.producing _ rem hopen hw hlv hf hcap hc hb ?_, ?_, ?_, ?_⟩
      · rw [← hE, hbuf]; simp [wroteAll]
      · simp [System.todo, hbuf]
      · intro _; simp [System.todo, hbuf]
      · intro hcalls; simp at hcalls
  | waiting l hclosed hw h0 hf hc hb hE =>
    rcases Nat.eq_zero_or_pos l.waitGroup with hz | hp
    · have e : System.workerStep
          { l := l, calls := [Call.close], waiting := true, crashed := false }
          = { l := l, calls := [Call.close], waiting := true, crashed := false } := by
        simp [System.workerStep, hz]
      rw [e]
      refine ⟨Phase.waiting l hclosed hw h0 hf hc hb hE, Nat.le_refl _, ?_, fun _ => rfl⟩
      intro hcase
      rcases hcase with ⟨_, h1⟩ | ⟨_, h1⟩ <;> (simp only at h1; omega)
    · have hne : l.waitGroup ≠ 0 := Nat.pos_iff_ne_zero.mp hp
      have hone : l.waitGroup = 1 := by omega
      cases hbuf : l.logCh.buf with
      | nil =>
        have e : System.workerStep
            { l := l, calls := [Call.close], waiting := true, crashed := false }
            = { l := { l with waitGroup := l.waitGroup - 1 },
                calls := [Call.close], waiting := true, crashed := false } := by
          simp [System.workerStep, hne, turn_nil_closed l hbuf hclosed]
        rw [e]
        refine ⟨Phase.waiting _ hclosed ?_ (fun _ => hbuf) hf hc hb hE, ?_, ?_, ?_⟩
        · simp only; omega
        · simp [System.todo]
        · intro _; simp [System.todo, hone]
        · intro hcalls; simp at hcalls
      | cons m rest =>
        have e : System.workerStep
            { l := l, calls := [Call.close], waiting := true, crashed := false }
            = { l := { l with
                  logCh := { l.logCh with buf := rest },
                  writer := { l.writer with
                    events := l.writer.events ++ [SinkEvent.wrote (lineOf m)] } },
                calls := [Call.close], waiting := true, crashed := false } := by
          simp [System.workerStep, hne, turn_cons l m rest hbuf, Writer.WriteString, hc, hb]
        rw [e]
        refine ⟨Phase.waiting _ hclosed hw (fun hz => absurd hz hne) hf hc hb ?_, ?_, ?_, ?_⟩
        · rw [← hE, hbuf]; simp [wroteAll]
        · simp [System.todo, hbuf]
        · intro _; simp [System.todo, hbuf]
        · intro hcalls; simp at hcalls
  | done l hz hbuf hE =>
    have e : System.workerStep { l := l, calls := [], waiting := false, crashed := false }
        = { l := l, calls := [], waiting := false, crashed := false } := by
      simp [System.workerStep, hz]
    rw [e]
    refine ⟨Phase.done l hz hbuf hE, Nat.le_refl _, ?_, fun _ => rfl⟩
    intro hcase
    rcases hcase with ⟨h1, _⟩ | ⟨h1, _⟩
    · exact absurd hbuf h1
    · simp at h1

theorem phase_step {E : List SinkEvent} {M : Nat} {f : Bool} {s : System}
    (h : Phase E M f s) (t : Thread) : Phase E M f (s.step t) := by
  cases t
  · exact (producer_move h).1
  · exact (worker_move h).1

/-- The phases are an invariant of every schedule. -/
theorem phase_run {E : List SinkEvent} {M : Nat} {f : Bool} (schedule : List Thread) :
    ∀ s : System, Phase E M f s → Phase E M f (s.run schedule) := by
  induction schedule with
  | nil => intro s h; exact h
  | cons t rest ih => intro s h; exact ih _ (phase_step h t)

/-- One move of the producer followed by one turn of the worker gets strictly closer to
the end, unless the producer has finished. -/
theorem round_progress {E : List SinkEvent} {M : Nat} {f : Bool} {s : System}
    (h : Phase E M f s) :
    Phase E M f s.producerStep.workerStep ∧
      (s.calls = [] ∨ s.producerStep.workerStep.todo < s.todo) ∧
      (s.calls = [] → s.producerStep.workerStep = s) := by
  obtain ⟨hp, hprog⟩ := producer_move h
  obtain ⟨hw, hle, _, _⟩ := worker_move hp
  refine ⟨hw, ?_, ?_⟩
  · rcases hprog with hlt | ⟨heq, hcase⟩
    · exact Or.inr (Nat.lt_of_le_of_lt hle hlt)
    · rcases hcase with hnil | hcase | hcase
      · exact Or.inl hnil
      · rw [heq]; exact Or.inr ((worker_move h).2.2.1 (Or.inl hcase))
      · rw [heq]; exact Or.inr ((worker_move h).2.2.1 (Or.inr hcase))
  · intro hnil
    rcases hprog with hlt | ⟨heq, _⟩
    · cases h with
      | producing l rem _ _ _ _ _ _ _ _ => simp at hnil
      | waiting l _ _ _ _ _ _ _ => simp at hnil
      | done l hz hbuf hE => simp [System.producerStep, System.todo] at hlt
    · rw [heq]; exact (worker_move h).2.2.2 hnil

/-- Letting the producer and the worker move alternately finishes the producer's calls
within `todo` rounds. -/
theorem alternate_finishes {E : List SinkEvent} {M : Nat} {f : Bool} :
    ∀ (n : Nat) (s : System), Phase E M f s → s.todo ≤ n + 1 →
      (s.run (alternate n)).calls = [] := by
  intro n
  induction n with
  | zero =>
    intro s h hle
    cases h with
    | producing l rem _ _ _ _ _ _ _ _ => simp [System.todo] at hle
    | waiting l _ _ _ _ _ _ _ => simp [System.todo] at hle; omega
    | done l _ _ _ => rfl
  | succ n ih =>
    intro s h hle
    obtain ⟨hph, hprog, hfix⟩ := round_progress h
    show (s.producerStep.workerStep.run (alternate n)).calls = []
    rcases hprog with hnil | hlt
    · rw [hfix hnil]
      apply ih s h
      cases h with
      | producing l rem _ _ _ _ _ _ _ _ => simp at hnil
      | waiting l _ _ _ _ _ _ _ => simp at hnil
      | done l hz hbuf _ => simp [System.todo, hz, hbuf]
    · exact ih _ hph (by omega)

/-! ## The claims -/

/-- C1.  Admission rule of `Log`: the levels are Fatal = 1 < Error = 2 < Info = 3 <
Debug = 4, and on an open logger whose queue has free space `Log(v, t)` appends exactly
the record `(v, t)` at the tail of the queue when `v` is at most the max level, and
returns with the logger (queue, max level, sink) unchanged when `v` is above it. -/
theorem Log_admission_rule (l : Logger) (v : LoggingLevel) (t : String)
    (hopen : l.logCh.closed = false) (hfree : l.logCh.buf.length < l.logCh.cap) :
    (Fatal = 1 ∧ Error = 2 ∧ Info = 3 ∧ Debug = 4) ∧
    (v ≤ l.level → Log l v t = .returned
      { l with logCh := { l.logCh with buf := l.logCh.buf ++ [{ level := v, message := t }] } }) ∧
    (l.level < v → Log l v t = .returned l) :=
  ⟨⟨rfl, rfl, rfl, rfl⟩, fun h => Log_sent l v t h hopen hfree, fun h => Log_dropped l v t h⟩

theorem Log_admission_rule_witness :
    freshLogger.logCh.closed = false ∧ freshLogger.logCh.buf.length < freshLogger.logCh.cap ∧
    Log freshLogger Error "An error message" = .returned
      { freshLogger with
        logCh := { freshLogger.logCh with
          buf := freshLogger.logCh.buf ++ [{ level := Error, message := "An error message" }] } } ∧
    Log freshLogger Debug "Debug message 1" = .returned freshLogger :=
  ⟨rfl, by decide,
    (Log_admission_rule freshLogger Error "An error message" rfl (by decide)).2.1 (by decide),
    (Log_admission_rule freshLogger Debug "Debug message 1" rfl (by decide)).2.2 (by decide)⟩

/-- C4.  Output line format: for a record `(v, t)` at the head of the queue and a
writable sink, one turn of the worker removes the record and makes the sink accept exactly
the string `"[" ++ levelName v ++ "]: " ++ t`, where the names of the four defined levels
are `Fatal`, `Error`, `Info`, `Debug`; nothing is appended after `t`. -/
theorem outputMessages_line_format (l : Logger) (v : LoggingLevel) (t : String)
    (rest : List logMessage) (hbuf : l.logCh.buf = { level := v, message := t } :: rest)
    (hc : l.writer.closed = false) (hb : l.writer.broken = false) :
    outputMessagesTurn l = .wrote
      { l with
        logCh := { l.logCh with buf := rest },
        writer := { l.writer with
          events := l.writer.events ++ [SinkEvent.wrote ("[" ++ levelName v ++ "]: " ++ t)] } } ∧
    levelName Fatal = "Fatal" ∧ levelName Error = "Error" ∧
    levelName Info = "Info" ∧ levelName Debug = "Debug" := by
  refine ⟨?_, by decide, by decide, by decide, by decide⟩
  rw [turn_cons l _ rest hbuf]
  simp [Writer.WriteString, hc, hb, lineOf]

theorem outputMessages_line_format_witness :
    outputMessagesTurn errorQueued = .wrote
      { errorQueued with
        logCh := { errorQueued.logCh with buf := [] },
        writer := { errorQueued.writer with
          events := errorQueued.writer.events
            ++ [SinkEvent.wrote ("[" ++ levelName Error ++ "]: " ++ "An error message")] } } ∧
    "[" ++ levelName Error ++ "]: " ++ "An error message" = "[Error]: An error message" :=
  ⟨(outputMessages_line_format errorQueued Error "An error message" [] rfl rfl rfl).1, by decide⟩

/-- The only way `SetMaxLevel` returns: the channel was open with free space, and the
announcement was queued behind the records that were there. -/
theorem SetMaxLevel_returned (l l1 : Logger) (L : Nat) (h : SetMaxLevel l L = .returned l1) :
    l.logCh.closed = false ∧
    l1 = { l with
      level := L,
      logCh := { l.logCh with
        buf := l.logCh.buf ++ [{ level := Info, message := announcement L }] } } := by
  cases hc : l.logCh.closed
  · rcases Nat.lt_or_ge l.logCh.buf.length l.logCh.cap with hfree | hfull
    · rw [SetMaxLevel_sent l L hc hfree] at h
      exact ⟨rfl, (Outcome.returned.inj h).symm⟩
    · rw [SetMaxLevel_eq,
        Log_parked { l with level := Info } Info _ (Nat.le_refl _) hc hfull] at h
      simp at h
  · rw [SetMaxLevel_eq, Log_closed { l with level := Info } Info _ (Nat.le_refl _) hc] at h
    simp at h

/-- C6.  A level change affects only later submissions: in every logger state, whenever
`SetMaxLevel(L)` returns, the max level is `L`, the records that were queued are still the
front of the queue, unchanged and in the same order (only the announcement is queued
behind them), the sink is untouched, and a later `Log(v, t)` is dropped when `v > L` and
queued (given free space) when `v <= L`; and the call does return on every open logger
with free queue space. -/
theorem SetMaxLevel_frame (l : Logger) (L : LoggingLevel) :
    (∀ l1, SetMaxLevel l L = .returned l1 →
      l1.level = L ∧
      l1.logCh.buf = l.logCh.buf ++ [{ level := Info, message := announcement L }] ∧
      l1.writer = l.writer ∧
      (∀ v t, L < v → Log l1 v t = .returned l1) ∧
      (∀ v t, v ≤ L → l1.logCh.buf.length < l1.logCh.cap → Log l1 v t = .returned
        { l1 with
          logCh := { l1.logCh with buf := l1.logCh.buf ++ [{ level := v, message := t }] } })) ∧
    (l.logCh.closed = false → l.logCh.buf.length < l.logCh.cap →
      ∃ l1, SetMaxLevel l L = .returned l1) := by
  constructor
  · intro l1 h
    obtain ⟨hopen, rfl⟩ := SetMaxLevel_returned l l1 L h
    exact ⟨rfl, rfl, rfl, fun v t hv => Log_dropped _ v t hv,
      fun v t hv hf => Log_sent _ v t hv hopen hf⟩
  · intro hopen hfree
    exact ⟨_, SetMaxLevel_sent l L hopen hfree⟩

theorem SetMaxLevel_frame_witness :
    ∃ l1, SetMaxLevel fileLogger Error = .returned l1 ∧ l1.level = Error ∧
      l1.logCh.buf = fileLogger.logCh.buf ++ [{ level := Info, message := announcement Error }] ∧
      l1.writer = fileLogger.writer ∧
      Log l1 Info "Info message 4" = .returned l1 ∧
      Log l1 Fatal "Fatal message" = .returned
        { l1 with
          logCh := { l1.logCh with
            buf := l1.logCh.buf ++ [{ level := Fatal, message := "Fatal message" }] } } := by
  obtain ⟨l1, h⟩ := (SetMaxLevel_frame fileLogger Error).2 rfl (by decide)
  obtain ⟨h1, h2, h3, h4, h5⟩ := (SetMaxLevel_frame fileLogger Error).1 l1 h
  refine ⟨l1, h, h1, h2, h3, h4 Info _ (by decide), h5 Fatal _ (by decide) ?_⟩
  have hcap : l1.logCh.cap = 100 := by
    rw [(SetMaxLevel_returned fileLogger l1 Error h).2]; rfl
  rw [h2, hcap]
  decide

theorem content_writeAll (w : Writer) (ls : List String)
    (hc : w.closed = false) (hb : w.broken = false) :
    (writeAll w ls).content = w.content ++ String.join ls := by
  rw [writeAll_healthy ls w hc hb]
  simp [Writer.content, linesOf_append, linesOf_wrote, join_append]

theorem content_Close (w : Writer) : w.Close.content = w.content := by
  simp [Writer.content, Writer.Close, linesOf_append, linesOf]

/-- C8.  `Close` drains before it releases: on an open logger with a live worker and a
writable sink, `Close` returns, the queue is then empty, and the sink has received, after
what it had, one accepted write per queued record in FIFO order and then, for a file
logger, the `Close` of the file as the last event; the content is the old content followed
by the rendered lines. -/
theorem Close_drains_then_releases (l : Logger)
    (hopen : l.logCh.closed = false) (hw : l.waitGroup = 1)
    (hc : l.writer.closed = false) (hb : l.writer.broken = false) :
    ∃ l1, Close l = .returned l1 ∧ l1.logCh.buf = [] ∧
      l1.writer.events =
        l.writer.events ++ (l.logCh.buf.map fun m => SinkEvent.wrote (lineOf m))
          ++ (if l.file then [SinkEvent.closed] else []) ∧
      l1.writer.content = l.writer.content ++ String.join (l.logCh.buf.map lineOf) := by
  refine ⟨_, Close_open l hopen hw, rfl, ?_, ?_⟩
  · cases hf : l.file <;>
      simp [closedState, hf, writeAll_healthy _ l.writer hc hb, Writer.Close, List.map_map,
        Function.comp_def]
  · cases hf : l.file <;>
      simp [closedState, hf, content_Close, content_writeAll l.writer _ hc hb]

theorem Close_drains_then_releases_witness :
    ∃ l1, Close fileLogger = .returned l1 ∧ l1.logCh.buf = [] ∧
      l1.writer.events =
        [SinkEvent.wrote "[Info]: started", SinkEvent.wrote "[Debug]: a",
          SinkEvent.wrote "[Fatal]: b", SinkEvent.closed] ∧
      l1.writer.content = "[Info]: started[Debug]: a[Fatal]: b" := by
  obtain ⟨l1, h1, h2, h3, h4⟩ := Close_drains_then_releases fileLogger rfl rfl rfl rfl
  refine ⟨l1, h1, h2, ?_, ?_⟩
  · rw [h3]; decide
  · rw [h4]; decide

/-- C7 (as the code has it).  A second `Close` panics: whenever a first `Close` has
returned with state `l1`, calling `Close` again panics with "close of closed channel"
before it touches anything, so the state and with it the sink content stay exactly as the
first `Close` left them. -/
theorem Close_twice_panics (l l1 : Logger) (h : Close l = .returned l1) :
    Close l1 = .panicked l1 "close of closed channel" :=
  Close_closed l1 (Close_returned_closed l l1 h)

theorem Close_twice_panics_witness :
    Close freshLogger = .returned (closedState freshLogger) ∧
    Close (closedState freshLogger)
      = .panicked (closedState freshLogger) "close of closed channel" :=
  ⟨by decide, Close_twice_panics freshLogger (closedState freshLogger) (by decide)⟩

/-- C7, the claim as stated fails: on the logger made by `New`, the first `Close`
returns and the second one panics. -/
theorem Close_not_idempotent :
    ∃ l0 l1, New emptyBuilder = .returned l0 ∧ Close l0 = .returned l1 ∧
      ∃ why, Close l1 = .panicked l1 why :=
  ⟨freshLogger, closedState freshLogger, by decide, by decide,
    "close of closed channel", by decide⟩

/-- C9 (as the code has it).  After `Close` has returned, `Log` and `Logf` panic with
"send on closed channel" exactly when the level passes the filter; a call whose level is
above the max level returns normally.  In both cases the state, and so the sink, is
unchanged. -/
theorem Log_after_Close (l l1 : Logger) (h : Close l = .returned l1)
    (v : LoggingLevel) (t f : String) (args : List Arg) :
    (v ≤ l1.level →
      Log l1 v t = .panicked l1 "send on closed channel" ∧
      Logf l1 v f args = .panicked l1 "send on closed channel") ∧
    (l1.level < v → Log l1 v t = .returned l1 ∧ Logf l1 v f args = .returned l1) := by
  have hc := Close_returned_closed l l1 h
  refine ⟨fun hv => ⟨Log_closed l1 v t hv hc, ?_⟩, fun hv => ⟨Log_dropped l1 v t hv, ?_⟩⟩
  · rw [Logf_eq]; exact Log_closed l1 v _ hv hc
  · rw [Logf_eq]; exact Log_dropped l1 v _ hv

theorem Log_after_Close_witness :
    Close freshLogger = .returned (closedState freshLogger) ∧
    Log (closedState freshLogger) Info "late"
      = .panicked (closedState freshLogger) "send on closed channel" :=
  ⟨by decide,
    ((Log_after_Close freshLogger (closedState freshLogger) (by decide)
      Info "late" "%s" [.str "late"]).1 (by decide)).1⟩

/-- C9, the claim as stated fails: after `New` and `Close`, `Log(Debug, ...)` and
`Logf(Debug, ...)` return normally instead of panicking. -/
theorem Log_after_Close_may_return :
    ∃ l0 l1, New emptyBuilder = .returned l0 ∧ Close l0 = .returned l1 ∧
      Log l1 Debug "Debug message 1" = .returned l1 ∧
      Logf l1 Debug "Debug message %d" [.int 2] = .returned l1 :=
  ⟨freshLogger, closedState freshLogger, by decide, by decide, by decide, by decide⟩

/-- C10 (as the code has it).  The worker drops the result of `WriteString`: when the
sink answers the write of a record with an error, the turn of the worker ends like any
other, with the record removed from the queue and no panic, and the worker goes on; the
only trace is that the sink did not take the line. -/
theorem worker_drops_write_error (l : Logger) (m : logMessage) (rest : List logMessage)
    (calls : List Call) (hbuf : l.logCh.buf = m :: rest)
    (herr : (l.writer.WriteString (lineOf m)).2 = true) :
    outputMessagesTurn l = .wrote
      { l with
        logCh := { l.logCh with buf := rest },
        writer := { l.writer with events := l.writer.events ++ [SinkEvent.refused (lineOf m)] } } ∧
    (System.start l calls).workerStep.crashed = false := by
  have hw : (l.writer.closed || l.writer.broken) = true := by
    by_contra hn
    simp [Writer.WriteString, hn] at herr
  have h1 := turn_cons l m rest hbuf
  constructor
  · rw [h1]; simp [Writer.WriteString, hw]
  · simp only [System.workerStep, System.start, h1]
    split <;> simp

theorem worker_drops_write_error_witness :
    outputMessagesTurn brokenSink = .wrote
      { brokenSink with
        logCh := { brokenSink.logCh with buf := [{ level := Fatal, message := "giving up" }] },
        writer := { brokenSink.writer with
          events := brokenSink.writer.events
            ++ [SinkEvent.refused (lineOf { level := Error, message := "disk full" })] } } ∧
    (System.start brokenSink [Call.close]).workerStep.crashed = false :=
  worker_drops_write_error brokenSink _ _ [Call.close] rfl (by decide)

/-- C10, the claim as stated fails: on a file logger whose file is unwritable, the write
of the first record returns an error, the worker's turn is an ordinary one, no panic ends
the process, and the worker goes on to the second record and parks. -/
theorem write_error_swallowed :
    (brokenSink.writer.WriteString "[Error]: disk full").2 = true ∧
    (∃ l1, outputMessagesTurn brokenSink = .wrote l1) ∧
    ((System.start brokenSink []).run [.worker, .worker, .worker]).crashed = false ∧
    ∃ l2, outputMessages brokenSink = .parked l2 ∧ l2.logCh.buf = [] ∧
      l2.writer.events =
        [SinkEvent.refused "[Error]: disk full", SinkEvent.refused "[Fatal]: giving up"] :=
  ⟨by decide, ⟨_, turn_cons brokenSink _ _ rfl⟩, by decide, _, rfl, rfl, rfl⟩

/-- C2.  End-to-end delivery for one producer: let the producer make the calls
`Log(m.level, m.message)` for the records `msgs` and then `Close`, on an open logger with
a live worker and a writable sink, while the worker runs beside it.  Under every schedule
no panic occurs and the sink never holds anything but a front part of the expected
events; whenever the producer has finished, the sink has received, after what it had and
after the lines of the records that were already queued, exactly the rendered lines of
the records with `level <= max level`, in call order and once each, and then the `Close`
of the file if there is one; records with a level above the max level contribute nothing.
The producer does finish: the alternating schedule of the stated length completes all
its calls. -/
theorem delivery_single_producer (l : Logger) (msgs : List logMessage)
    (hopen : l.logCh.closed = false) (hw : l.waitGroup = 1) (hcap : 0 < l.logCh.cap)
    (hc : l.writer.closed = false) (hb : l.writer.broken = false) :
    (∀ schedule : List Thread,
      ((System.start l (logCalls msgs ++ [Call.close])).run schedule).crashed = false ∧
      ((System.start l (logCalls msgs ++ [Call.close])).run schedule).l.writer.events <+:
        (l.writer.events ++ wroteAll l.logCh.buf ++ wroteAll (admitted l.level msgs)
          ++ (if l.file then [SinkEvent.closed] else [])) ∧
      (((System.start l (logCalls msgs ++ [Call.close])).run schedule).calls = [] →
        ((System.start l (logCalls msgs ++ [Call.close])).run schedule).l.writer.events =
          l.writer.events ++ wroteAll l.logCh.buf ++ wroteAll (admitted l.level msgs)
            ++ (if l.file then [SinkEvent.closed] else []) ∧
        ((System.start l (logCalls msgs ++ [Call.close])).run schedule).l.logCh.buf = [])) ∧
    ((System.start l (logCalls msgs ++ [Call.close])).run
      (alternate (2 * msgs.length + l.logCh.buf.length + 3))).calls = [] := by
  have h0 : Phase (l.writer.events ++ wroteAll (l.logCh.buf ++ admitted l.level msgs))
      l.level l.file (System.start l (logCalls msgs ++ [Call.close])) :=
    Phase.producing l msgs hopen hw rfl rfl hcap hc hb rfl
  have hE : l.writer.events ++ wroteAll l.logCh.buf ++ wroteAll (admitted l.level msgs)
      = l.writer.events ++ wroteAll (l.logCh.buf ++ admitted l.level msgs) := by
    rw [wroteAll_append, List.append_assoc]
  rw [hE]
  constructor
  · intro schedule
    have h := phase_run schedule _ h0
    generalize (System.start l (logCalls msgs ++ [Call.close])).run schedule = s at h
    cases h with
    | producing l1 rem _ _ _ _ _ _ _ hE1 =>
      refine ⟨rfl, ?_, ?_⟩
      · rw [← hE1, List.append_assoc]
        exact List.prefix_append _ _
      · intro hnil; simp at hnil
    | waiting l1 _ _ _ _ _ _ hE1 =>
      refine ⟨rfl, ?_, ?_⟩
      · rw [← hE1, List.append_assoc]
        exact List.prefix_append _ _
      · intro hnil; simp at hnil
    | done l1 _ hbuf hE1 =>
      exact ⟨rfl, by rw [hE1], fun _ => ⟨hE1, hbuf⟩⟩
  · apply alternate_finishes _ _ h0
    simp [System.todo, System.start, logCalls, hw]
    omega

theorem delivery_single_producer_witness :
    (∀ schedule : List Thread,
      ((System.start fileLogger
        (logCalls [{ level := Info, message := "x" }, { level := 5, message := "y" },
          { level := Error, message := "z" }] ++ [Call.close])).run schedule).calls = [] →
      ((System.start fileLogger
        (logCalls [{ level := Info, message := "x" }, { level := 5, message := "y" },
          { level := Error, message := "z" }] ++ [Call.close])).run schedule).l.writer.events =
        [SinkEvent.wrote "[Info]: started", SinkEvent.wrote "[Debug]: a",
          SinkEvent.wrote "[Fatal]: b", SinkEvent.wrote "[Info]: x",
          SinkEvent.wrote "[Error]: z", SinkEvent.closed]) ∧
    ((System.start fileLogger
      (logCalls [{ level := Info, message := "x" }, { level := 5, message := "y" },
        { level := Error, message := "z" }] ++ [Call.close])).run (alternate 11)).calls = [] := by
  have h := delivery_single_producer fileLogger
    [{ level := Info, message := "x" }, { level := 5, message := "y" },
      { level := Error, message := "z" }] rfl rfl (by decide) rfl rfl
  refine ⟨fun schedule hnil => ?_, h.2⟩
  rw [((h.1 schedule).2.2 hnil).1]
  decide

/-- What the code does in the default logger scenario, for every text: `New` itself
queues the announcement of the level `Info`, so on a logger freshly made by `New` over an
empty in-memory sink, once `Log(Info, t)` has been processed the sink holds the
announcement line followed by `"[Info]: " ++ t`; a following `Log(Debug, ...)` changes
nothing. -/
theorem default_logger_scenario (t : String) :
    ∃ l0 l1 l2, New emptyBuilder = .returned l0 ∧ Log l0 Info t = .returned l1 ∧
      outputMessages l1 = .parked l2 ∧ l2.logCh.buf = [] ∧
      l2.writer.content
        = "[Info]: Setting max logging level to 'Info'\n" ++ ("[Info]: " ++ t) ∧
      ∀ u, Log l2 Debug u = .returned l2 := by
  have h1 := Log_sent freshLogger Info t (by decide) rfl (by decide)
  refine ⟨freshLogger, _, ?l2, New_fresh, h1, ?_, ?_, ?_, ?_⟩
  case l2 =>
    exact
      { freshLogger with
        logCh := { freshLogger.logCh with buf := [] },
        writer := writeAll freshLogger.writer
          ((freshLogger.logCh.buf ++ [({ level := Info, message := t } : logMessage)]).map
            lineOf) }
  · rw [outputMessages_drains]; rfl
  · rfl
  · apply String.ext
    simp [Writer.content, writeAll, Writer.WriteString, freshLogger, emptyBuilder, linesOf,
      lineOf, String.data_join, Info, levelName]
  · intro u
    exact Log_dropped _ Debug u (show (3 : Nat) < 4 by decide)

/-- C3, the code at the failing input, the calls of `TestDefaultLoggingLevel`: after
`New` over an empty `strings.Builder` and `Log(Info, "Info message 1")`, once the queue
has been processed, the sink holds
`[Info]: Setting max logging level to 'Info'` with its newline and then
`[Info]: Info message 1`, which is not the content `[Info]: Info message 1` that the claim
and the test ask for: the announcement queued by `New` was written before the message. -/
theorem default_logger_sink_not_exact :
    ∃ l0 l1 l2, New emptyBuilder = .returned l0 ∧
      Log l0 Info "Info message 1" = .returned l1 ∧
      outputMessages l1 = .parked l2 ∧ l2.logCh.buf = [] ∧
      l2.writer.content
        = "[Info]: Setting max logging level to 'Info'\n[Info]: Info message 1" ∧
      l2.writer.content ≠ "[Info]: Info message 1" :=
  ⟨freshLogger, _, _, by decide, rfl, rfl, rfl, by decide, by decide⟩

/-- What the code does for a new level below `Info`: on an open logger with free queue
space, `SetMaxLevel(level)` for `Fatal` or `Error` queues exactly one record, the
announcement `(Info, "Setting max logging level to '<name>'\n")`, behind the records
already queued, writes nothing to the sink itself and sets the max level.  In the
scenario of `TestSetLoggingLevel` (`New`, then the calls of `levelScenario`, all
processed) the sink holds both announcements among the admitted lines. -/
theorem SetMaxLevel_announces_below_Info (l : Logger) (level : LoggingLevel)
    (hlevel : level = Fatal ∨ level = Error)
    (hopen : l.logCh.closed = false) (hfree : l.logCh.buf.length < l.logCh.cap) :
    SetMaxLevel l level = .returned
      { l with
        level := level,
        logCh := { l.logCh with
          buf := l.logCh.buf ++
            [{ level := Info,
               message := "Setting max logging level to '" ++ levelName level ++ "'\n" }] } } ∧
    (levelName level = "Fatal" ∨ levelName level = "Error") ∧
    ((System.start freshLogger levelScenario).run (alternate 6)).calls = [] ∧
    ((System.start freshLogger levelScenario).run (alternate 6)).l.writer.content
      = "[Info]: Setting max logging level to 'Info'\n[Info]: Info message 1"
        ++ "[Info]: Setting max logging level to 'Error'\n"
        ++ "[Error]: Error message 1[Fatal]: Fatal message" := by
  refine ⟨SetMaxLevel_sent l level hopen hfree, ?_, by decide, by decide⟩
  rcases hlevel with h | h <;> subst h
  · exact Or.inl (by decide)
  · exact Or.inr (by decide)

theorem SetMaxLevel_announces_below_Info_witness :
    SetMaxLevel fileLogger Fatal = .returned
      { fileLogger with
        level := Fatal,
        logCh := { fileLogger.logCh with
          buf := fileLogger.logCh.buf ++
            [{ level := Info,
               message := "Setting max logging level to '" ++ levelName Fatal ++ "'\n" }] } } :=
  (SetMaxLevel_announces_below_Info fileLogger Fatal (Or.inl rfl) rfl (by decide)).1

/-- C5, the code at the failing input, the calls of `TestSetLoggingLevel`:
`SetMaxLevel(Error)` on the logger made by `New` adds the announcement record to the
queue although `Error` is below `Info`; and after `New`, `Log(Info, "Info message 1")`,
`SetMaxLevel(Error)`, `Log(Info, "Info message 4")`, `Logf(Error, "Error message %d", 1)`
and `Log(Fatal, "Fatal message")`, all processed, the sink holds the two announcement
lines among the admitted lines, which is not the content
`[Info]: Info message 1[Error]: Error message 1[Fatal]: Fatal message` that the claim and
the test ask for. -/
theorem SetMaxLevel_Error_adds_record :
    (∃ l1, SetMaxLevel freshLogger Error = .returned l1 ∧
      l1.logCh.buf = freshLogger.logCh.buf ++
        [{ level := Info, message := "Setting max logging level to 'Error'\n" }]) ∧
    New emptyBuilder = .returned freshLogger ∧
    ((System.start freshLogger levelScenario).run (alternate 6)).calls = [] ∧
    ((System.start freshLogger levelScenario).run (alternate 6)).l.logCh.buf = [] ∧
    ((System.start freshLogger levelScenario).run (alternate 6)).l.writer.content
      = "[Info]: Setting max logging level to 'Info'\n[Info]: Info message 1"
        ++ "[Info]: Setting max logging level to 'Error'\n"
        ++ "[Error]: Error message 1[Fatal]: Fatal message" ∧
    ((System.start freshLogger levelScenario).run (alternate 6)).l.writer.content
      ≠ "[Info]: Info message 1[Error]: Error message 1[Fatal]: Fatal message" :=
  ⟨⟨_, rfl, rfl⟩, by decide, by decide, by decide, by decide, by decide⟩

/-! ## Construction -/

theorem New_eq (w : Writer) : New w = .returned (newLogger w) := by
  have h := SetMaxLevel_sent
    { writer := w, file := false, waitGroup := 1, level := 0,
      logCh := { buf := [], cap := 100, closed := false } }
    Info rfl (show (0 : Nat) < 100 by decide)
  unfold New
  rw [h]
  rfl

theorem NewFileLogger_stdout (os : OS) (f : String) (h : ToLower f = "stdout") :
    NewFileLogger os f = (.ok (.returned { newLogger os.Stdout with file := true }), os) := by
  simp [NewFileLogger, h, New_eq]

theorem NewFileLogger_created (os : OS) (f : String) (file : Writer)
    (h : ToLower f ≠ "stdout") (hok : os.answer f = .ok file) :
    NewFileLogger os f =
      (.ok (.returned { newLogger file with file := true }),
       { os with created := os.created ++ [f] }) := by
  simp [NewFileLogger, h, OS.Create, hok, New_eq]

theorem NewFileLogger_failed (os : OS) (f : String) (e : String)
    (h : ToLower f ≠ "stdout") (herr : os.answer f = .error e) :
    NewFileLogger os f = (.error e, os) := by
  simp [NewFileLogger, h, OS.Create, herr]

/-- C12.  Default level: for every writer the logger returned by `New` has max level
`Info`, and so has every logger that `NewFileLogger` returns. -/
theorem default_level_is_Info (w : Writer) (os : OS) (f : String) :
    (∃ l, New w = .returned l ∧ l.level = Info) ∧
    (∀ o, (NewFileLogger os f).1 = .ok o → ∃ l, o = .returned l ∧ l.level = Info) := by
  refine ⟨⟨_, New_eq w, rfl⟩, ?_⟩
  intro o ho
  by_cases h : ToLower f = "stdout"
  · rw [NewFileLogger_stdout os f h] at ho
    injection ho with ho
    exact ⟨_, ho.symm, rfl⟩
  · cases hans : os.answer f with
    | error e =>
      rw [NewFileLogger_failed os f e h hans] at ho
      cases ho
    | ok file =>
      rw [NewFileLogger_created os f file h hans] at ho
      injection ho with ho
      exact ⟨_, ho.symm, rfl⟩

theorem default_level_is_Info_witness :
    (∃ l, New emptyBuilder = .returned l ∧ l.level = Info) ∧
    ∃ l, (NewFileLogger sampleOS "logging.log").1 = .ok (.returned l) ∧ l.level = Info := by
  have h := default_level_is_Info emptyBuilder sampleOS "logging.log"
  have hcr : (NewFileLogger sampleOS "logging.log").1
      = .ok (.returned { newLogger emptyBuilder with file := true }) :=
    congrArg Prod.fst
      (NewFileLogger_created sampleOS "logging.log" emptyBuilder (by decide) rfl)
  obtain ⟨l, hl, hlevel⟩ := h.2 _ hcr
  exact ⟨h.1, l, by rw [hcr, hl], hlevel⟩

/-- C13.  `Logf` is `Log` after rendering: in every logger state, for every level,
format and argument list, `Logf(level, format, args...)` ends exactly as
`Log(level, Sprintf(format, args...))` does, with the same queue, level and sink.  On the
logger made by `New`, `Logf(Fatal, "Test message with variable: %d", 16)` makes the worker
write `[Fatal]: Test message with variable: 16`, and
`Logf(Info, "Test msg with two variables: %d, %s", 4, "str")` makes it write
`[Info]: Test msg with two variables: 4, str`. -/
theorem Logf_is_Log_after_rendering (l : Logger) (level : LoggingLevel) (format : String)
    (args : List Arg) :
    Logf l level format args = Log l level (Sprintf format args) ∧
    ((System.start freshLogger
        [.logf Fatal "Test message with variable: %d" [.int 16]]).run (alternate 2)
      ).l.writer.events =
      [SinkEvent.wrote "[Info]: Setting max logging level to 'Info'\n",
        SinkEvent.wrote "[Fatal]: Test message with variable: 16"] ∧
    ((System.start freshLogger
        [.logf Info "Test msg with two variables: %d, %s" [.int 4, .str "str"]]).run
        (alternate 2)).l.writer.events =
      [SinkEvent.wrote "[Info]: Setting max logging level to 'Info'\n",
        SinkEvent.wrote "[Info]: Test msg with two variables: 4, str"] :=
  ⟨Logf_eq l level format args, by decide, by decide⟩

/-- C14 (as the code has it).  Fatal-only filtering: when the max level is `Fatal`,
`Log` on an open logger with free queue space queues a message iff its level is at most
`Fatal`, that is `Fatal` or the undefined value 0; a message with any level from 2 up is
dropped, the logger left unchanged. -/
theorem Fatal_only_filtering (l : Logger) (v : LoggingLevel) (t : String)
    (hmax : l.level = Fatal)
    (hopen : l.logCh.closed = false) (hfree : l.logCh.buf.length < l.logCh.cap) :
    ((v = Fatal ∨ v = 0) → Log l v t = .returned
      { l with logCh := { l.logCh with buf := l.logCh.buf ++ [{ level := v, message := t }] } }) ∧
    (2 ≤ v → Log l v t = .returned l) ∧
    (v = Fatal ∨ v = 0 ∨ 2 ≤ v) := by
  refine ⟨fun h => Log_sent l v t ?_ hopen hfree, fun h => Log_dropped l v t ?_, ?_⟩
  · rw [hmax]
    rcases h with h | h <;> subst h <;> decide
  · rw [hmax]
    exact h
  · have hF : Fatal = 1 := rfl
    rw [hF]
    have key : ∀ n : Nat, n = 1 ∨ n = 0 ∨ 2 ≤ n := fun n => by omega
    exact key v

theorem Fatal_only_filtering_witness :
    Log fatalOnly Fatal "Fatal message" = .returned
      { fatalOnly with
        logCh := { fatalOnly.logCh with
          buf := fatalOnly.logCh.buf ++ [{ level := Fatal, message := "Fatal message" }] } } ∧
    Log fatalOnly Error "Error message 1" = .returned fatalOnly :=
  ⟨(Fatal_only_filtering fatalOnly Fatal "Fatal message" rfl rfl (by decide)).1 (Or.inl rfl),
    (Fatal_only_filtering fatalOnly Error "Error message 1" rfl rfl (by decide)).2.1
      (by decide)⟩

/-- C14, the claim as stated fails: with max level `Fatal`, a message whose level is the
value 0, which is not `Fatal`, is queued and reaches the sink. -/
theorem Fatal_only_admits_zero :
    fatalOnly.level = Fatal ∧ (0 : LoggingLevel) ≠ Fatal ∧
    ∃ l1 l2, Log fatalOnly 0 "x" = .returned l1 ∧
      l1.logCh.buf = [{ level := 0, message := "x" }] ∧
      outputMessages l1 = .parked l2 ∧
      l2.writer.events = [SinkEvent.wrote "[Undefined:0]: x"] :=
  ⟨rfl, by decide, _, _, rfl, rfl, rfl, by decide⟩

theorem levelName_undefined (v : Nat) (h : v < 1 ∨ 4 < v) :
    levelName v = "Undefined:" ++ toString v := by
  have e1 : v ≠ 1 := by omega
  have e2 : v ≠ 2 := by omega
  have e3 : v ≠ 3 := by omega
  have e4 : v ≠ 4 := by omega
  simp [levelName, e1, e2, e3, e4]

/-- C15 (as the code has it).  Display fallback for out-of-range levels: for every
level value outside `Fatal..Debug` (0 and 5 and up) the level name used in the output
line is `Undefined:` followed by the decimal value, so that a record `(v, t)` is written
as `"[Undefined:" ++ decimal v ++ "]: " ++ t`. -/
theorem fallback_name_is_Undefined (l : Logger) (v : LoggingLevel) (t : String)
    (rest : List logMessage) (hv : v < Fatal ∨ Debug < v)
    (hbuf : l.logCh.buf = { level := v, message := t } :: rest)
    (hc : l.writer.closed = false) (hb : l.writer.broken = false) :
    levelAsString v = some ("Undefined:" ++ toString v) ∧
    outputMessagesTurn l = .wrote
      { l with
        logCh := { l.logCh with buf := rest },
        writer := { l.writer with
          events := l.writer.events
            ++ [SinkEvent.wrote ("[Undefined:" ++ toString v ++ "]: " ++ t)] } } := by
  have hn := levelName_undefined v hv
  refine ⟨by rw [levelAsString_eq, hn], ?_⟩
  rw [turn_cons l _ rest hbuf]
  have hline : lineOf { level := v, message := t }
      = "[Undefined:" ++ toString v ++ "]: " ++ t := by
    simp only [lineOf, hn]
    apply String.ext
    simp
  simp [Writer.WriteString, hc, hb, hline]

theorem fallback_name_is_Undefined_witness :
    levelAsString 200 = some ("Undefined:" ++ toString 200) ∧
    "Undefined:" ++ toString 200 = "Undefined:200" ∧
    outputMessagesTurn undefinedQueued = .wrote
      { undefinedQueued with
        logCh := { undefinedQueued.logCh with buf := [{ level := 200, message := "y" }] },
        writer := { undefinedQueued.writer with
          events := undefinedQueued.writer.events
            ++ [SinkEvent.wrote ("[Undefined:" ++ toString 0 ++ "]: " ++ "x")] } } :=
  ⟨(fallback_name_is_Undefined { undefinedQueued with
        logCh := { undefinedQueued.logCh with buf := [{ level := 200, message := "y" }] } }
      200 "y" [] (Or.inr (by decide)) rfl rfl rfl).1,
    by decide,
    (fallback_name_is_Undefined undefinedQueued 0 "x" _ (Or.inl (by decide)) rfl rfl rfl).2⟩

/-- C15, the claim as stated fails: the name of the level 0 is `Undefined:0`, not
`Unknown:0`, and the record `(0, "x")` is written as `[Undefined:0]: x`. -/
theorem fallback_name_not_Unknown :
    levelAsString 0 = some "Undefined:0" ∧ levelAsString 0 ≠ some "Unknown:0" ∧
    ∃ l1, outputMessagesTurn undefinedQueued = .wrote l1 ∧
      l1.writer.events = [SinkEvent.wrote "[Undefined:0]: x"] ∧
      l1.writer.events ≠ [SinkEvent.wrote "[Unknown:0]: x"] :=
  ⟨by decide, by decide, _, rfl, by decide, by decide⟩

/-- C16.  The logger cannot be crashed by a malformed level: `levelAsString` yields a
string for every level value (so for each of the 256 values of `uint8`), the two places
where it indexes the table `LevelsAsStrings` use an index below the length 5 of the
table, and no turn of the worker ends in a panic, whatever level the record carries. -/
theorem levelAsString_total (v : LoggingLevel) :
    (∃ name, levelAsString v = some name) ∧
    LevelsAsStrings.length = 5 ∧ 0 < LevelsAsStrings.length ∧
    ((decide (v < Fatal) || decide (v > Debug)) = false → v < LevelsAsStrings.length) ∧
    (∀ l l1 : Logger, outputMessagesTurn l ≠ .panics l1) := by
  refine ⟨⟨_, levelAsString_eq v⟩, rfl, by decide, ?_, ?_⟩
  · intro h
    simp only [Fatal, Debug, Bool.or_eq_false_iff, decide_eq_false_iff_not] at h
    have key : ∀ n : Nat, ¬ 4 < n → n < 5 := fun n hn => by omega
    exact key v h.2
  · intro l l1 h
    cases hbuf : l.logCh.buf with
    | nil =>
      cases hc : l.logCh.closed
      · rw [turn_nil_open l hbuf hc] at h; cases h
      · rw [turn_nil_closed l hbuf hc] at h; cases h
    | cons m rest =>
      rw [turn_cons l m rest hbuf] at h; cases h

theorem levelAsString_total_witness :
    (∃ name, levelAsString 255 = some name) ∧
    ∀ l1 : Logger, outputMessagesTurn undefinedQueued ≠ .panics l1 :=
  ⟨(levelAsString_total 255).1, fun l1 => (levelAsString_total 255).2.2.2.2 undefinedQueued l1⟩

/-- C17.  Sink selection in `NewFileLogger`: when the selector `f` lower-cased is
`stdout` (as for `stdout`, `STDOUT`, `StdOut`) the sink of the logger is the standard
output stream and the file system is left as it was, no file being created; for every
other `f` the file system is the one `os.Create(f)` leaves, and when `os.Create(f)` yields
a file, the path `f` has been created or truncated and that file is the sink.  In both
cases the logger holds the sink as its file. -/
theorem NewFileLogger_sink_selection (os : OS) (f : String) :
    (ToLower f = "stdout" →
      ∃ l, NewFileLogger os f = (.ok (.returned l), os) ∧
        l.writer = os.Stdout ∧ l.file = true) ∧
    (ToLower f ≠ "stdout" →
      (NewFileLogger os f).2 = (os.Create f).2 ∧
      ∀ file, os.answer f = .ok file →
        ∃ l, NewFileLogger os f
            = (.ok (.returned l), { os with created := os.created ++ [f] }) ∧
          l.writer = file ∧ l.file = true) ∧
    ToLower "stdout" = "stdout" ∧ ToLower "STDOUT" = "stdout" ∧
    ToLower "StdOut" = "stdout" ∧ ToLower "stdout.log" ≠ "stdout" := by
  refine ⟨fun h => ⟨_, NewFileLogger_stdout os f h, rfl, rfl⟩, fun h => ⟨?_, ?_⟩,
    by decide, by decide, by decide, by decide⟩
  · cases hans : os.answer f with
    | error e => rw [NewFileLogger_failed os f e h hans]; simp [OS.Create, hans]
    | ok file => rw [NewFileLogger_created os f file h hans]; simp [OS.Create, hans]
  · intro file hans
    exact ⟨_, NewFileLogger_created os f file h hans, rfl, rfl⟩

theorem NewFileLogger_sink_selection_witness :
    (∃ l, NewFileLogger sampleOS "StdOut" = (.ok (.returned l), sampleOS) ∧
      l.writer = sampleOS.Stdout ∧ l.file = true) ∧
    (∃ l, NewFileLogger sampleOS "logging.log"
        = (.ok (.returned l),
           { sampleOS with created := sampleOS.created ++ ["logging.log"] }) ∧
      l.writer = emptyBuilder ∧ l.file = true) :=
  ⟨(NewFileLogger_sink_selection sampleOS "StdOut").1 (by decide),
    ((NewFileLogger_sink_selection sampleOS "logging.log").2.1 (by decide)).2
      emptyBuilder rfl⟩

/-- C18.  Construction failure: for every selector `f` that is not `stdout` in any
letter case and whose file cannot be created, `NewFileLogger` returns the error of
`os.Create` and no logger (`New` is not reached: no queue, no worker), leaving the file
system as it was; whenever the selector is `stdout` or the file is created, it returns a
logger, with its queue of capacity 100 and its worker counted in the wait group, and no
error. -/
theorem NewFileLogger_construction_failure (os : OS) (f : String) :
    (ToLower f ≠ "stdout" → ∀ e, os.answer f = .error e →
      NewFileLogger os f = (.error e, os)) ∧
    ((ToLower f = "stdout" ∨ ∃ file, os.answer f = .ok file) →
      ∃ l, (NewFileLogger os f).1 = .ok (.returned l) ∧
        l.waitGroup = 1 ∧ l.logCh.cap = 100 ∧ l.logCh.closed = false) := by
  refine ⟨fun h e herr => NewFileLogger_failed os f e h herr, ?_⟩
  intro h
  by_cases hs : ToLower f = "stdout"
  · exact ⟨_, congrArg Prod.fst (NewFileLogger_stdout os f hs), rfl, rfl, rfl⟩
  · rcases h with h | ⟨file, hfile⟩
    · exact absurd h hs
    · exact ⟨_, congrArg Prod.fst (NewFileLogger_created os f file hs hfile), rfl, rfl, rfl⟩

theorem NewFileLogger_construction_failure_witness :
    NewFileLogger sampleOS "/logging.log"
      = (.error "open /logging.log: permission denied", sampleOS) ∧
    ∃ l, (NewFileLogger sampleOS "logging.log").1 = .ok (.returned l) ∧
      l.waitGroup = 1 ∧ l.logCh.cap = 100 ∧ l.logCh.closed = false :=
  ⟨(NewFileLogger_construction_failure sampleOS "/logging.log").1 (by decide) _ rfl,
    (NewFileLogger_construction_failure sampleOS "logging.log").2
      (Or.inr ⟨emptyBuilder, rfl⟩)⟩

/-! ## The bound on the queue -/

theorem Log_bounded (l : Logger) (v : Nat) (t : String) :
    (Log l v t).state.logCh.cap = l.logCh.cap ∧
    (l.logCh.buf.length ≤ l.logCh.cap →
      (Log l v t).state.logCh.buf.length ≤ l.logCh.cap) := by
  rcases Nat.lt_or_ge l.level v with hv | hv
  · rw [Log_dropped l v t hv]; exact ⟨rfl, fun h => h⟩
  · cases hc : l.logCh.closed
    · rcases Nat.lt_or_ge l.logCh.buf.length l.logCh.cap with hfree | hfull
      · rw [Log_sent l v t hv hc hfree]
        refine ⟨rfl, fun _ => ?_⟩
        simp only [Outcome.state, List.length_append, List.length_singleton]
        omega
      · rw [Log_parked l v t hv hc hfull]; exact ⟨rfl, fun h => h⟩
    · rw [Log_closed l v t hv hc]; exact ⟨rfl, fun h => h⟩

theorem SetMaxLevel_bounded (l : Logger) (v : Nat) :
    (SetMaxLevel l v).state.logCh.cap = l.logCh.cap ∧
    (l.logCh.buf.length ≤ l.logCh.cap →
      (SetMaxLevel l v).state.logCh.buf.length ≤ l.logCh.cap) := by
  have h := Log_bounded { l with level := Info } Info (announcement v)
  rw [SetMaxLevel_eq]
  cases hlog : Log { l with level := Info } Info (announcement v) with
  | returned l2 => rw [hlog] at h; exact h
  | parked l2 => rw [hlog] at h; exact h
  | panicked l2 why => rw [hlog] at h; exact h

theorem afterCall_state (s : System) (rest : List Call) (o : Outcome) :
    (s.afterCall rest o).l = o.state := by
  cases o <;> rfl

/-- No move of the producer or of the worker changes the capacity of the queue or takes
the queue beyond it. -/
theorem step_bounded (s : System) (t : Thread)
    (h : s.l.logCh.buf.length ≤ s.l.logCh.cap) :
    (s.step t).l.logCh.cap = s.l.logCh.cap ∧
    (s.step t).l.logCh.buf.length ≤ s.l.logCh.cap := by
  cases t with
  | producer =>
    obtain ⟨l, calls, waiting, crashed⟩ := s
    show (System.producerStep _).l.logCh.cap = l.logCh.cap ∧
      (System.producerStep _).l.logCh.buf.length ≤ l.logCh.cap
    cases crashed
    · cases calls with
      | nil => exact ⟨rfl, h⟩
      | cons c rest =>
        cases c with
        | log v t =>
          have e : System.producerStep ⟨l, Call.log v t :: rest, waiting, false⟩
              = System.afterCall ⟨l, Call.log v t :: rest, waiting, false⟩ rest
                  (Log l v t) := rfl
          rw [e, afterCall_state]
          exact ⟨(Log_bounded l v t).1, (Log_bounded l v t).2 h⟩
        | logf v f args =>
          have e : System.producerStep ⟨l, Call.logf v f args :: rest, waiting, false⟩
              = System.afterCall ⟨l, Call.logf v f args :: rest, waiting, false⟩ rest
                  (Logf l v f args) := rfl
          rw [e, afterCall_state, Logf_eq]
          exact ⟨(Log_bounded l v _).1, (Log_bounded l v _).2 h⟩
        | setMaxLevel v =>
          have e : System.producerStep ⟨l, Call.setMaxLevel v :: rest, waiting, false⟩
              = System.afterCall ⟨l, Call.setMaxLevel v :: rest, waiting, false⟩ rest
                  (SetMaxLevel l v) := rfl
          rw [e, afterCall_state]
          exact ⟨(SetMaxLevel_bounded l v).1, (SetMaxLevel_bounded l v).2 h⟩
        | close =>
          cases waiting
          · cases hcl : l.logCh.closed
            · simp only [System.producerStep, Chan.close, hcl]
              exact ⟨rfl, h⟩
            · simp only [System.producerStep, Chan.close, hcl]
              exact ⟨rfl, h⟩
          · by_cases hz : l.waitGroup = 0
            · cases hf : l.file
              · simp only [System.producerStep, hz, hf]
                exact ⟨rfl, h⟩
              · simp only [System.producerStep, hz, hf]
                exact ⟨rfl, h⟩
            · simp only [System.producerStep, hz]
              exact ⟨rfl, h⟩
    · exact ⟨rfl, h⟩
  | worker =>
    simp only [System.step, System.workerStep]
    split
    · exact ⟨rfl, h⟩
    · cases hbuf : s.l.logCh.buf with
      | nil =>
        cases hc : s.l.logCh.closed
        · rw [turn_nil_open s.l hbuf hc]; exact ⟨rfl, h⟩
        · rw [turn_nil_closed s.l hbuf hc]; exact ⟨rfl, h⟩
      | cons m rest =>
        rw [turn_cons s.l m rest hbuf]
        refine ⟨rfl, ?_⟩
        rw [hbuf] at h
        simp only [List.length_cons] at h
        simp only
        omega

theorem run_bounded (schedule : List Thread) :
    ∀ s : System, s.l.logCh.buf.length ≤ s.l.logCh.cap →
      (s.run schedule).l.logCh.cap = s.l.logCh.cap ∧
      (s.run schedule).l.logCh.buf.length ≤ s.l.logCh.cap := by
  induction schedule with
  | nil => intro s h; exact ⟨rfl, h⟩
  | cons t rest ih =>
    intro s h
    have h1 := step_bounded s t h
    have h2 := ih (s.step t) (by rw [h1.1]; exact h1.2)
    show ((s.step t).run rest).l.logCh.cap = _ ∧ ((s.step t).run rest).l.logCh.buf.length ≤ _
    rw [h1.1] at h2
    exact h2

theorem admitted_all (M : Nat) (msgs : List logMessage) (h : ∀ m ∈ msgs, m.level ≤ M) :
    admitted M msgs = msgs := by
  simp only [admitted, List.filter_eq_self, decide_eq_true_eq]
  exact h

/-- C11.  Bounded queue with backpressure.  In every state reachable from the logger
made by `New`, whatever calls the producer makes and however the worker is scheduled, the
queue holds at most 100 records.  A `Log` call of an admitted message on a full queue
parks with the logger unchanged (nothing dropped, nothing overwritten); once the worker
has taken the oldest record, the same call queues its message at the tail.  So the 150
admitted messages `msgs` of one producer followed by `Close` leave the sink, under every
schedule that lets the producer finish, with the announcement of `New` and then the lines
of all 150 messages in order; and the alternating schedule lets the producer finish. -/
theorem bounded_queue_backpressure (w : Writer) (msgs : List logMessage)
    (hc : w.closed = false) (hb : w.broken = false)
    (hadm : ∀ m ∈ msgs, m.level ≤ Info) (hlen : msgs.length = 150) :
    New w = .returned (newLogger w) ∧
    (∀ (calls : List Call) (schedule : List Thread),
      ((System.start (newLogger w) calls).run schedule).l.logCh.cap = 100 ∧
      ((System.start (newLogger w) calls).run schedule).l.logCh.buf.length ≤ 100) ∧
    (∀ (l : Logger) (v : LoggingLevel) (t : String) (m : logMessage)
        (rest : List logMessage),
      l.logCh.closed = false → l.logCh.buf = m :: rest →
      l.logCh.buf.length = l.logCh.cap → v ≤ l.level →
      Log l v t = .parked l ∧
      ∃ l1, outputMessagesTurn l = .wrote l1 ∧ l1.logCh.buf = rest ∧
        Log l1 v t = .returned
          { l1 with
            logCh := { l1.logCh with buf := rest ++ [{ level := v, message := t }] } }) ∧
    (∀ schedule : List Thread,
      ((System.start (newLogger w) (logCalls msgs ++ [Call.close])).run schedule).calls = [] →
      ((System.start (newLogger w) (logCalls msgs ++ [Call.close])).run schedule).l.writer.events
        = w.events ++ [SinkEvent.wrote "[Info]: Setting max logging level to 'Info'\n"]
          ++ wroteAll msgs) ∧
    ((System.start (newLogger w) (logCalls msgs ++ [Call.close])).run (alternate 304)).calls
      = [] := by
  have h0 : Phase
      (w.events ++ wroteAll ((newLogger w).logCh.buf ++ admitted Info msgs))
      Info false (System.start (newLogger w) (logCalls msgs ++ [Call.close])) :=
    Phase.producing (newLogger w) msgs rfl rfl rfl rfl (show (0 : Nat) < 100 by decide)
      hc hb rfl
  refine ⟨New_eq w, ?_, ?_, ?_, ?_⟩
  · intro calls schedule
    exact run_bounded schedule (System.start (newLogger w) calls)
      (show (1 : Nat) ≤ 100 by decide)
  · intro l v t m rest hopen hbuf hfull hv
    have hfree : rest.length < l.logCh.cap := by
      rw [← hfull, hbuf]
      exact Nat.lt_succ_self _
    exact ⟨Log_parked l v t hv hopen (Nat.le_of_eq hfull.symm), _, turn_cons l m rest hbuf,
      rfl,
      Log_sent
        { l with
          logCh := { l.logCh with buf := rest },
          writer := (l.writer.WriteString (lineOf m)).1 }
        v t hv hopen hfree⟩
  · intro schedule hnil
    have h := phase_run schedule _ h0
    generalize (System.start (newLogger w) (logCalls msgs ++ [Call.close])).run schedule = s
      at h hnil
    cases h with
    | producing l1 rem _ _ _ _ _ _ _ _ => simp at hnil
    | waiting l1 _ _ _ _ _ _ _ => simp at hnil
    | done l1 _ _ hE =>
      rw [hE, admitted_all Info msgs hadm, wroteAll_append]
      simp only [if_false, Bool.false_eq_true, List.append_nil, List.append_assoc]
      rfl
  · apply alternate_finishes 304 _ h0
    simp [System.todo, System.start, logCalls, hlen, newLogger]

theorem bounded_queue_backpressure_witness :
    (∀ (calls : List Call) (schedule : List Thread),
      ((System.start (newLogger emptyBuilder) calls).run schedule).l.logCh.buf.length ≤ 100) ∧
    (∀ schedule : List Thread,
      ((System.start (newLogger emptyBuilder)
        (logCalls manyMessages ++ [Call.close])).run schedule).calls = [] →
      ((System.start (newLogger emptyBuilder)
        (logCalls manyMessages ++ [Call.close])).run schedule).l.writer.events
        = [SinkEvent.wrote "[Info]: Setting max logging level to 'Info'\n"]
          ++ wroteAll manyMessages) ∧
    ((System.start (newLogger emptyBuilder)
      (logCalls manyMessages ++ [Call.close])).run (alternate 304)).calls = [] := by
  have h := bounded_queue_backpressure emptyBuilder manyMessages rfl rfl
    (by
      intro m hm
      simp only [manyMessages, List.mem_map] at hm
      obtain ⟨i, _, rfl⟩ := hm
      exact Nat.le_refl _)
    (by simp [manyMessages])
  exact ⟨fun calls schedule => (h.2.1 calls schedule).2, h.2.2.2.1, h.2.2.2.2⟩

/-! ## Several producers and the worker, under any schedule -/

theorem crowd_producer_idle (s : Crowd) (i : Nat) (h : s.pending i = []) :
    s.producerStep i = s := by
  unfold Crowd.producerStep
  split
  · rfl
  · rw [h]

theorem crowd_producer_sent (s : Crowd) (i : Nat) (m : logMessage) (rest : List logMessage)
    (halive : s.crashed = false) (h : s.pending i = m :: rest) (hv : m.level ≤ s.l.level)
    (hopen : s.l.logCh.closed = false) (hfree : s.l.logCh.buf.length < s.l.logCh.cap) :
    s.producerStep i =
      { l := { s.l with logCh := { s.l.logCh with buf := s.l.logCh.buf ++ [m] } },
        pending := Function.update s.pending i rest,
        crashed := false } := by
  unfold Crowd.producerStep
  rw [h]
  simp only [halive, Log_sent s.l m.level m.message hv hopen hfree]
  rfl

theorem crowd_producer_parked (s : Crowd) (i : Nat) (m : logMessage)
    (rest : List logMessage)
    (halive : s.crashed = false) (h : s.pending i = m :: rest) (hv : m.level ≤ s.l.level)
    (hopen : s.l.logCh.closed = false) (hfull : s.l.logCh.cap ≤ s.l.logCh.buf.length) :
    s.producerStep i = s := by
  obtain ⟨l, pending, crashed⟩ := s
  simp only at halive h hv hopen hfull
  subst halive
  simp [Crowd.producerStep, h, Log_parked l m.level m.message hv hopen hfull]

theorem crowd_worker_wrote (s : Crowd) (m : logMessage) (rest : List logMessage)
    (halive : s.crashed = false) (hw : s.l.waitGroup = 1) (h : s.l.logCh.buf = m :: rest)
    (hc : s.l.writer.closed = false) (hb : s.l.writer.broken = false) :
    s.workerStep =
      { s with
        l := { s.l with
          logCh := { s.l.logCh with buf := rest },
          writer := { s.l.writer with
            events := s.l.writer.events ++ [SinkEvent.wrote (lineOf m)] } } } := by
  unfold Crowd.workerStep
  simp [halive, hw, turn_cons s.l m rest h, Writer.WriteString, hc, hb]

theorem crowd_worker_parks (s : Crowd) (h : s.l.logCh.buf = [])
    (hopen : s.l.logCh.closed = false) : s.workerStep = s := by
  unfold Crowd.workerStep
  split
  · rfl
  · rw [turn_nil_open s.l h hopen]

theorem linesBy_append (who : String → Nat) (i : Nat) (a b : List String) :
    linesBy who i (a ++ b) = linesBy who i a ++ linesBy who i b := by
  simp [linesBy]

theorem linesBy_own (who : String → Nat) (i : Nat) (ls : List String)
    (h : ∀ x ∈ ls, who x = i) : linesBy who i ls = ls := by
  simp only [linesBy, List.filter_eq_self, decide_eq_true_eq]
  exact h

theorem linesBy_single_own (who : String → Nat) (i : Nat) (x : String) (h : who x = i) :
    linesBy who i [x] = [x] := by
  simp [linesBy, h]

theorem linesBy_single_other (who : String → Nat) (i : Nat) (x : String) (h : who x ≠ i) :
    linesBy who i [x] = [] := by
  simp [linesBy, h]

theorem orderly_producer {who : String → Nat} {M : Nat} {T : Nat → List String}
    {s : Crowd} (h : Orderly who M T s) (i : Nat) : Orderly who M T (s.producerStep i) := by
  cases hp : s.pending i with
  | nil => rw [crowd_producer_idle s i hp]; exact h
  | cons m rest =>
    have hm : m ∈ s.pending i := by rw [hp]; exact List.mem_cons_self _ _
    have hv : m.level ≤ s.l.level := by rw [h.level]; exact h.allowed i m hm
    have hwho : who (lineOf m) = i := h.marked i m hm
    rcases Nat.lt_or_ge s.l.logCh.buf.length s.l.logCh.cap with hfree | hfull
    · rw [crowd_producer_sent s i m rest h.alive hp hv h.isOpen hfree]
      have hsub : ∀ j x, x ∈ Function.update s.pending i rest j → x ∈ s.pending j := by
        intro j x hx
        by_cases hj : j = i
        · subst hj
          rw [Function.update_same] at hx
          rw [hp]
          exact List.mem_cons_of_mem _ hx
        · rw [Function.update_noteq hj] at hx
          exact hx
      refine ⟨rfl, h.isOpen, h.worker, h.level, h.room, h.notClosed, h.notBroken,
        fun j x hx => h.allowed j x (hsub j x hx),
        fun j x hx => h.marked j x (hsub j x hx), ?_⟩
      intro j
      have hj := h.order j
      simp only [List.map_append, List.map_cons, List.map_nil, ← List.append_assoc,
        linesBy_append] at hj ⊢
      by_cases hji : j = i
      · subst hji
        rw [Function.update_same, linesBy_single_own who j _ hwho, ← hj, hp]
        simp
      · rw [Function.update_noteq hji,
          linesBy_single_other who j _ (fun e => hji (e.symm.trans hwho)), ← hj]
        simp
    · rw [crowd_producer_parked s i m rest h.alive hp hv h.isOpen hfull]; exact h

theorem orderly_worker {who : String → Nat} {M : Nat} {T : Nat → List String}
    {s : Crowd} (h : Orderly who M T s) : Orderly who M T s.workerStep := by
  cases hbuf : s.l.logCh.buf with
  | nil => rw [crowd_worker_parks s hbuf h.isOpen]; exact h
  | cons m rest =>
    rw [crowd_worker_wrote s m rest h.alive h.worker hbuf h.notClosed h.notBroken]
    refine ⟨h.alive, h.isOpen, h.worker, h.level, h.room, h.notClosed, h.notBroken,
      h.allowed, h.marked, ?_⟩
    intro j
    have hj := h.order j
    rw [hbuf] at hj
    rw [← hj]
    simp [linesOf_append, linesOf]

theorem orderly_run {who : String → Nat} {M : Nat} {T : Nat → List String}
    (schedule : List Actor) :
    ∀ s : Crowd, Orderly who M T s → Orderly who M T (s.run schedule) := by
  induction schedule with
  | nil => intro s h; exact h
  | cons a rest ih =>
    intro s h
    cases a with
    | producer i => exact ih _ (orderly_producer h i)
    | worker => exact ih _ (orderly_worker h)

theorem crowd_run_append (s : Crowd) (a b : List Actor) :
    s.run (a ++ b) = (s.run a).run b := by
  simp [Crowd.run, List.foldl_append]

/-- The worker alone empties the queue. -/
theorem crowd_drain {who : String → Nat} {M : Nat} {T : Nat → List String}
    (q : List logMessage) :
    ∀ s : Crowd, Orderly who M T s → s.l.logCh.buf = q →
      ∃ schedule, (s.run schedule).l.logCh.buf = [] ∧ (s.run schedule).pending = s.pending := by
  induction q with
  | nil => intro s _ hq; exact ⟨[], hq, rfl⟩
  | cons m rest ih =>
    intro s h hq
    have hstep := crowd_worker_wrote s m rest h.alive h.worker hq h.notClosed h.notBroken
    obtain ⟨schedule, h1, h2⟩ := ih s.workerStep (orderly_worker h) (by rw [hstep])
    refine ⟨Actor.worker :: schedule, h1, ?_⟩
    show (s.workerStep.run schedule).pending = s.pending
    rw [h2, hstep]

/-- On an empty queue, one producer can submit all its records, the worker writing each
of them at once. -/
theorem crowd_submit {who : String → Nat} {M : Nat} {T : Nat → List String} (i : Nat)
    (ms : List logMessage) :
    ∀ s : Crowd, Orderly who M T s → s.pending i = ms → s.l.logCh.buf = [] →
      ∃ schedule, (s.run schedule).l.logCh.buf = [] ∧
        (s.run schedule).pending = Function.update s.pending i [] := by
  induction ms with
  | nil =>
    intro s _ hp hq
    refine ⟨[], hq, ?_⟩
    show s.pending = Function.update s.pending i []
    rw [← hp, Function.update_eq_self]
  | cons m rest ih =>
    intro s h hp hq
    have hm : m ∈ s.pending i := by rw [hp]; exact List.mem_cons_self _ _
    have hv : m.level ≤ s.l.level := by rw [h.level]; exact h.allowed i m hm
    have hfree : s.l.logCh.buf.length < s.l.logCh.cap := by rw [hq]; exact h.room
    have h1 := crowd_producer_sent s i m rest h.alive hp hv h.isOpen hfree
    have o1 := orderly_producer h i
    have hq1 : (s.producerStep i).l.logCh.buf = [m] := by rw [h1, hq]; rfl
    have h2 := crowd_worker_wrote (s.producerStep i) m [] o1.alive o1.worker hq1
      o1.notClosed o1.notBroken
    have o2 := orderly_worker o1
    have hp2 : (s.producerStep i).workerStep.pending = Function.update s.pending i rest := by
      rw [h2, h1]
    obtain ⟨schedule, h3, h4⟩ := ih (s.producerStep i).workerStep o2
      (by rw [hp2, Function.update_same]) (by rw [h2])
    refine ⟨Actor.producer i :: Actor.worker :: schedule, h3, ?_⟩
    show (((s.producerStep i).workerStep).run schedule).pending = _
    rw [h4, hp2, Function.update_idem]

/-- On an empty queue, the producers `0`, ..., `k - 1` can submit all their records one
after the other. -/
theorem crowd_serve {who : String → Nat} {M : Nat} {T : Nat → List String} (k : Nat) :
    ∀ s : Crowd, Orderly who M T s → s.l.logCh.buf = [] →
      ∃ schedule, (s.run schedule).l.logCh.buf = [] ∧
        (∀ j, j < k → (s.run schedule).pending j = []) ∧
        (∀ j, k ≤ j → (s.run schedule).pending j = s.pending j) := by
  induction k with
  | zero =>
    intro s _ hq
    exact ⟨[], hq, fun j hj => absurd hj (Nat.not_lt_zero j), fun j _ => rfl⟩
  | succ k ih =>
    intro s h hq
    obtain ⟨a, ha1, ha2, ha3⟩ := ih s h hq
    obtain ⟨b, hb1, hb2⟩ := crowd_submit k _ (s.run a) (orderly_run a s h) rfl ha1
    refine ⟨a ++ b, ?_, ?_, ?_⟩
    · rw [crowd_run_append]; exact hb1
    · intro j hj
      rw [crowd_run_append, hb2]
      by_cases hjk : j = k
      · subst hjk; exact Function.update_same _ _ _
      · rw [Function.update_noteq hjk]
        exact ha2 j (by omega)
    · intro j hj
      rw [crowd_run_append, hb2, Function.update_noteq (by omega)]
      exact ha3 j (by omega)

/-- C19.  Per-producer ordering under concurrency.  Any number of producers submit
their sequences of records `streams` with `Log`, concurrently, to one open logger with a
live worker and a writable sink; every record is admitted, and the classifier `who` tells
from a line which producer it comes from.  Then under every interleaving no panic occurs
and, for every producer `i`, the lines of `i` in the sink are at any time a front part of,
and once all producers are done and the queue is drained they are exactly, the lines of
`i` that were there or queued at the start followed by the lines of the records of `i` in
submission order.  Some interleaving does let all producers finish and drains the
queue. -/
theorem per_producer_order (l : Logger) (streams : List (List logMessage))
    (who : String → Nat)
    (hopen : l.logCh.closed = false) (hw : l.waitGroup = 1) (hcap : 0 < l.logCh.cap)
    (hc : l.writer.closed = false) (hb : l.writer.broken = false)
    (hadm : ∀ i m, m ∈ streams.getD i [] → m.level ≤ l.level)
    (hid : ∀ i m, m ∈ streams.getD i [] → who (lineOf m) = i) :
    (∀ (schedule : List Actor) (i : Nat),
      ((Crowd.start l streams).run schedule).crashed = false ∧
      linesBy who i (linesOf ((Crowd.start l streams).run schedule).l.writer.events) <+:
        linesBy who i (linesOf l.writer.events ++ l.logCh.buf.map lineOf)
          ++ (streams.getD i []).map lineOf ∧
      ((∀ j, ((Crowd.start l streams).run schedule).pending j = []) →
        ((Crowd.start l streams).run schedule).l.logCh.buf = [] →
        linesBy who i (linesOf ((Crowd.start l streams).run schedule).l.writer.events) =
          linesBy who i (linesOf l.writer.events ++ l.logCh.buf.map lineOf)
            ++ (streams.getD i []).map lineOf)) ∧
    ∃ schedule : List Actor,
      (∀ j, ((Crowd.start l streams).run schedule).pending j = []) ∧
      ((Crowd.start l streams).run schedule).l.logCh.buf = [] := by
  have h0 : Orderly who l.level
      (fun i => linesBy who i (linesOf l.writer.events ++ l.logCh.buf.map lineOf)
        ++ (streams.getD i []).map lineOf)
      (Crowd.start l streams) :=
    ⟨rfl, hopen, hw, rfl, hcap, hc, hb, hadm, hid, fun _ => rfl⟩
  constructor
  · intro schedule i
    have h := orderly_run schedule _ h0
    have ho := h.order i
    simp only [linesBy_append] at ho
    refine ⟨h.alive, ?_, ?_⟩
    · simp only [linesBy_append]
      rw [← ho, List.append_assoc]
      exact List.prefix_append _ _
    · intro hdone hq
      rw [hdone i, hq] at ho
      simp only [linesBy_append]
      rw [← ho]
      simp [linesBy]
  · obtain ⟨a, ha1, ha2⟩ := crowd_drain l.logCh.buf (Crowd.start l streams) h0 rfl
    obtain ⟨b, hb1, hb2, hb3⟩ :=
      crowd_serve streams.length ((Crowd.start l streams).run a) (orderly_run a _ h0) ha1
    refine ⟨a ++ b, ?_, ?_⟩
    · intro j
      rw [crowd_run_append]
      rcases Nat.lt_or_ge j streams.length with hj | hj
      · exact hb2 j hj
      · rw [hb3 j hj, ha2]
        show streams.getD j [] = []
        simp [List.getD, List.getElem?_eq_none hj]
    · rw [crowd_run_append]; exact hb1

theorem per_producer_order_witness :
    (∀ schedule : List Actor,
      (∀ j, ((Crowd.start freshLogger twoStreams).run schedule).pending j = []) →
      ((Crowd.start freshLogger twoStreams).run schedule).l.logCh.buf = [] →
      linesBy lastLetter 0
          (linesOf ((Crowd.start freshLogger twoStreams).run schedule).l.writer.events)
        = ["[Info]: a", "[Info]: aa"] ∧
      linesBy lastLetter 1
          (linesOf ((Crowd.start freshLogger twoStreams).run schedule).l.writer.events)
        = ["[Error]: b"]) ∧
    ∃ schedule : List Actor,
      (∀ j, ((Crowd.start freshLogger twoStreams).run schedule).pending j = []) ∧
      ((Crowd.start freshLogger twoStreams).run schedule).l.logCh.buf = [] := by
  have h := per_producer_order freshLogger twoStreams lastLetter rfl rfl (by decide) rfl rfl
    (by
      intro i m hm
      match i, hm with
      | 0, hm =>
        simp [twoStreams] at hm
        rcases hm with rfl | rfl <;> decide
      | 1, hm =>
        simp [twoStreams] at hm
        subst hm
        decide
      | n + 2, hm => simp [twoStreams] at hm)
    (by
      intro i m hm
      match i, hm with
      | 0, hm =>
        simp [twoStreams] at hm
        rcases hm with rfl | rfl <;> decide
      | 1, hm =>
        simp [twoStreams] at hm
        subst hm
        decide
      | n + 2, hm => simp [twoStreams] at hm)
  refine ⟨fun schedule hdone hq => ⟨?_, ?_⟩, h.2⟩
  · rw [(h.1 schedule 0).2.2 hdone hq]; decide
  · rw [(h.1 schedule 1).2.2 hdone hq]; decide

/-- C27.  `SetMaxLevel` always announces: whatever the prior max level (also one below
`Info`) and whatever the new level, on an open logger with free queue space
`SetMaxLevel(level)` appends exactly one record to the queue, the record
`(Info, "Setting max logging level to '" ++ levelAsString(level) ++ "'\n")`, and returns
with the max level set to `level` and nothing else changed.  So the logger returned by
`New` over any writer has the one record
`(Info, "Setting max logging level to 'Info'\n")` in its queue. -/
theorem SetMaxLevel_always_announces (l : Logger) (level : LoggingLevel) (w : Writer)
    (hopen : l.logCh.closed = false) (hfree : l.logCh.buf.length < l.logCh.cap) :
    (∃ name, levelAsString level = some name ∧
      SetMaxLevel l level = .returned
        { l with
          level := level,
          logCh := { l.logCh with
            buf := l.logCh.buf ++
              [{ level := Info,
                 message := "Setting max logging level to '" ++ name ++ "'\n" }] } }) ∧
    ∃ l0, New w = .returned l0 ∧
      l0.logCh.buf
        = [{ level := Info, message := "Setting max logging level to 'Info'\n" }] ∧
      l0.level = Info :=
  ⟨⟨levelName level, levelAsString_eq level, SetMaxLevel_sent l level hopen hfree⟩,
    newLogger w, New_eq w,
    congrArg (fun m => [({ level := Info, message := m } : logMessage)])
      (by decide : announcement Info = "Setting max logging level to 'Info'\n"),
    rfl⟩

theorem SetMaxLevel_always_announces_witness :
    fatalOnly.level < Info ∧
    ∃ name, levelAsString Debug = some name ∧
      SetMaxLevel fatalOnly Debug = .returned
        { fatalOnly with
          level := Debug,
          logCh := { fatalOnly.logCh with
            buf := fatalOnly.logCh.buf ++
              [{ level := Info,
                 message := "Setting max logging level to '" ++ name ++ "'\n" }] } } :=
  ⟨by decide, (SetMaxLevel_always_announces fatalOnly Debug emptyBuilder rfl (by decide)).1⟩

end logger

namespace settings

/-! ## Numbers -/

theorem digitChar_isDigit (k : Nat) (h : k < 10) :
    isDigit (Nat.digitChar k) = true ∧ (Nat.digitChar k).toNat - 48 = k := by
  interval_cases k <;> decide

theorem digitChar_ne_zero (k : Nat) (h : k < 10) (h0 : k ≠ 0) : Nat.digitChar k ≠ '0' := by
  interval_cases k <;> first | exact absurd rfl h0 | decide

theorem core_append (fuel : Nat) :
    ∀ (n : Nat) (ds : List Char),
      Nat.toDigitsCore 10 fuel n ds = Nat.toDigitsCore 10 fuel n [] ++ ds := by
  induction fuel with
  | zero => intro n ds; rfl
  | succ fuel ih =>
    intro n ds
    simp only [Nat.toDigitsCore]
    split
    · rfl
    · rw [ih (n / 10) (Nat.digitChar (n % 10) :: ds), ih (n / 10) [Nat.digitChar (n % 10)]]
      simp

/-- Reading back the digits written for `n` continues from the number `n`. -/
theorem readNat_core (fuel : Nat) :
    ∀ (n : Nat) (ds : List Char), n < fuel →
      readNat 0 (Nat.toDigitsCore 10 fuel n ds) = readNat n ds := by
  induction fuel with
  | zero => intro n ds h; exact absurd h (Nat.not_lt_zero n)
  | succ fuel ih =>
    intro n ds h
    have hd := digitChar_isDigit (n % 10) (Nat.mod_lt n (by decide))
    simp only [Nat.toDigitsCore]
    split
    · next h0 =>
      simp only [readNat, hd.1, if_true, hd.2]
      congr 1
      omega
    · next h0 =>
      rw [ih (n / 10) _ (by omega)]
      simp only [readNat, hd.1, if_true, hd.2]
      congr 1
      omega

/-- The digits written for a positive number start with a digit that is not `0`. -/
theorem core_head (fuel : Nat) :
    ∀ (n : Nat) (ds : List Char), 0 < n → n < fuel →
      ∃ c tl, Nat.toDigitsCore 10 fuel n ds = c :: tl ∧ isDigit c = true ∧ c ≠ '0' := by
  induction fuel with
  | zero => intro n ds _ h; exact absurd h (Nat.not_lt_zero n)
  | succ fuel ih =>
    intro n ds hpos h
    simp only [Nat.toDigitsCore]
    split
    · next h0 =>
      have hlt : n % 10 < 10 := Nat.mod_lt n (by decide)
      exact ⟨_, _, rfl, (digitChar_isDigit _ hlt).1, digitChar_ne_zero _ hlt (by omega)⟩
    · next h0 => exact ih (n / 10) _ (Nat.pos_of_ne_zero h0) (by omega)

theorem isDigit_ne_minus (c : Char) (h : isDigit c = true) : c ≠ '-' := by
  intro hc
  subst hc
  exact absurd h (by decide)

theorem isDigit_ne_quote (c : Char) (h : isDigit c = true) :
    c ≠ '"' ∧ c ≠ '{' ∧ c ≠ '[' ∧ c ≠ ' ' ∧ c ≠ '\t' ∧ c ≠ '\n' ∧ c ≠ '\r' := by
  refine ⟨?_, ?_, ?_, ?_, ?_, ?_, ?_⟩ <;>
    (intro hc; subst hc; exact absurd h (by decide))

/-- The text of a non-zero integer starts with `-` or a digit that is not `0`, and behind
its sign it reads back as its absolute value. -/
theorem intText_shape (n : Int) (hn : n ≠ 0) (rest : List Char) :
    (0 < n ∧ ∃ c tl, intText n ++ rest = c :: tl ∧ isDigit c = true ∧ c ≠ '0' ∧
      readNat 0 (c :: tl) = readNat n.toNat rest) ∨
    (n < 0 ∧ ∃ c tl, intText n ++ rest = '-' :: c :: tl ∧ isDigit c = true ∧ c ≠ '0' ∧
      readNat 0 (c :: tl) = readNat (-n).toNat rest) := by
  cases n with
  | ofNat k =>
    have hk : 0 < k := by
      rcases Nat.eq_zero_or_pos k with h | h
      · subst h; exact absurd rfl hn
      · exact h
    left
    refine ⟨Int.ofNat_lt.mpr hk, ?_⟩
    obtain ⟨c, tl, h1, h2, h3⟩ := core_head (k + 1) k rest hk (Nat.lt_succ_self k)
    refine ⟨c, tl, ?_, h2, h3, ?_⟩
    · rw [← h1]
      show Nat.toDigitsCore 10 (k + 1) k [] ++ rest = _
      rw [← core_append]
    · rw [← h1, readNat_core (k + 1) k rest (Nat.lt_succ_self k)]
      rfl
  | negSucc k =>
    right
    refine ⟨Int.negSucc_lt_zero k, ?_⟩
    obtain ⟨c, tl, h1, h2, h3⟩ :=
      core_head (k + 2) (k + 1) rest (Nat.succ_pos k) (Nat.lt_succ_self _)
    refine ⟨c, tl, ?_, h2, h3, ?_⟩
    · rw [← h1]
      show '-' :: (Nat.toDigitsCore 10 (k + 1 + 1) (k + 1) [] ++ rest) = _
      rw [← core_append]
    · rw [← h1, readNat_core (k + 2) (k + 1) rest (Nat.lt_succ_self _)]
      rfl

/-- A non-zero integer written by `intText` and followed by a comma reads back as
itself. -/
theorem readValue_intText (n : Int) (hn : n ≠ 0) (rest : List Char) :
    readValue (skipWs (intText n ++ ',' :: rest)) = .ok (.int n, ',' :: rest) := by
  have hcomma : readNat n.toNat (',' :: rest) = (n.toNat, ',' :: rest) := by
    simp [readNat, isDigit]
  have hcomma2 : readNat (-n).toNat (',' :: rest) = ((-n).toNat, ',' :: rest) := by
    simp [readNat, isDigit]
  have hfrac : readFraction (',' :: rest) = some (false, ',' :: rest) := by
    simp [readFraction]
  rcases intText_shape n hn (',' :: rest) with ⟨hpos, c, tl, h1, h2, h3, h4⟩ |
      ⟨hneg, c, tl, h1, h2, h3, h4⟩
  · obtain ⟨q1, q2, q3, q4, q5, q6, q7⟩ := isDigit_ne_quote c h2
    have hm := isDigit_ne_minus c h2
    rw [h1]
    have hws : skipWs (c :: tl) = c :: tl := by simp [skipWs, q4, q5, q6, q7]
    rw [hws]
    have hval : readValue (c :: tl) = readNumber (c :: tl) := by
      simp [readValue, q1, q2, q3, h2]
    rw [hval]
    simp only [readNumber, List.head?_cons, Option.some.injEq, hm, decide_False,
      Bool.false_eq_true, if_false, h2, Bool.not_true, h3, false_and, h4, hcomma, hfrac]
    have : ((n.toNat : Nat) : Int) = n := Int.toNat_of_nonneg (Int.le_of_lt hpos)
    rw [this]
  · have hm := isDigit_ne_minus c h2
    rw [h1]
    have hws : skipWs ('-' :: c :: tl) = '-' :: c :: tl := by simp [skipWs]
    rw [hws]
    have hval : readValue ('-' :: c :: tl) = readNumber ('-' :: c :: tl) := by
      simp [readValue]
    rw [hval]
    simp only [readNumber, List.head?_cons, decide_True, if_true, List.tail_cons, h2,
      Bool.not_true, Bool.false_eq_true, if_false, h3, false_and, h4, hcomma2, hfrac]
    have : -(((-n).toNat : Nat) : Int) = n := by
      rw [Int.toNat_of_nonneg (by omega)]
      omega
    rw [this]

/-! ## Strings -/

theorem hexVal_digitChar (k : Nat) (h : k < 16) : hexVal (Nat.digitChar k) = some k := by
  interval_cases k <;> decide

/-- The escape `\u00XX` written for a character below 128 reads back as the character. -/
theorem unicodeEscape_low (c : Char) (h : c.toNat < 128) :
    unicodeEscape '0' '0' (Nat.digitChar (c.toNat / 16)) (Nat.digitChar (c.toNat % 16))
      = some c := by
  have h1 : c.toNat / 16 < 16 := by omega
  have h2 : c.toNat % 16 < 16 := Nat.mod_lt _ (by decide)
  have h0 : hexVal '0' = some 0 := by decide
  have hsum : ((0 * 16 + 0) * 16 + c.toNat / 16) * 16 + c.toNat % 16 = c.toNat := by omega
  simp only [unicodeEscape, h0, hexVal_digitChar _ h1, hexVal_digitChar _ h2, hsum]
  have hs : ¬ (55296 ≤ c.toNat ∧ c.toNat ≤ 57343) := by omega
  rw [if_neg hs, Char.ofNat_toNat]

theorem readString_quote (rest : List Char) : readString ('"' :: rest) = some ([], rest) := by
  rw [readString.eq_def]
  simp

theorem readString_plain (c : Char) (rest s r : List Char) (h1 : c ≠ '"') (h2 : c ≠ '\\')
    (h3 : ¬ c.toNat < 32) (h : readString rest = some (s, r)) :
    readString (c :: rest) = some (c :: s, r) := by
  rw [readString.eq_def]
  simp [h1, h2, h3, h]

theorem readString_simple (e x : Char) (rest s r : List Char) (he : e ≠ 'u')
    (hx : simpleEscape e = some x) (h : readString rest = some (s, r)) :
    readString ('\\' :: e :: rest) = some (x :: s, r) := by
  rw [readString.eq_def]
  simp [he, hx, h]

theorem readString_unicode (a b c d x : Char) (rest s r : List Char)
    (hx : unicodeEscape a b c d = some x) (h : readString rest = some (s, r)) :
    readString ('\\' :: 'u' :: a :: b :: c :: d :: rest) = some (x :: s, r) := by
  rw [readString.eq_def]
  simp [hx, h]

/-- Reading undoes escaping: the characters written for `s`, up to the closing quote,
read back as `s`. -/
theorem readString_escape (s : List Char) (rest : List Char) :
    readString (escape s ++ '"' :: rest) = some (s, rest) := by
  induction s with
  | nil => exact readString_quote rest
  | cons c cs ih =>
    simp only [escape, List.append_assoc]
    unfold escapeChar
    by_cases h1 : c = '"'
    · subst h1
      exact readString_simple _ _ _ _ _ (by decide) (by decide) ih
    by_cases h2 : c = '\\'
    · subst h2
      exact readString_simple _ _ _ _ _ (by decide) (by decide) ih
    by_cases h3 : c = '\n'
    · subst h3
      exact readString_simple _ _ _ _ _ (by decide) (by decide) ih
    by_cases h4 : c = '\r'
    · subst h4
      exact readString_simple _ _ _ _ _ (by decide) (by decide) ih
    by_cases h5 : c = '\t'
    · subst h5
      exact readString_simple _ _ _ _ _ (by decide) (by decide) ih
    by_cases h6 : c.toNat < 32 ∨ c = '<' ∨ c = '>' ∨ c = '&'
    · have hlow : c.toNat < 128 := by
        rcases h6 with h | h | h | h
        · omega
        · subst h; decide
        · subst h; decide
        · subst h; decide
      simp only [if_neg h1, if_neg h2, if_neg h3, if_neg h4, if_neg h5, if_pos h6]
      exact readString_unicode _ _ _ _ _ _ _ _ (unicodeEscape_low c hlow) ih
    by_cases h7 : c.toNat = 8232
    · have hc : Char.ofNat 8232 = c := by rw [← h7, Char.ofNat_toNat]
      have hu : unicodeEscape '2' '0' '2' '8' = some (Char.ofNat 8232) := by decide
      simp only [if_neg h1, if_neg h2, if_neg h3, if_neg h4, if_neg h5, if_neg h6, if_pos h7]
      rw [hc] at hu
      exact readString_unicode _ _ _ _ _ _ _ _ hu ih
    by_cases h8 : c.toNat = 8233
    · have hc : Char.ofNat 8233 = c := by rw [← h8, Char.ofNat_toNat]
      have hu : unicodeEscape '2' '0' '2' '9' = some (Char.ofNat 8233) := by decide
      simp only [if_neg h1, if_neg h2, if_neg h3, if_neg h4, if_neg h5, if_neg h6, if_neg h7,
        if_pos h8]
      rw [hc] at hu
      exact readString_unicode _ _ _ _ _ _ _ _ hu ih
    have h9 : ¬ c.toNat < 32 := fun h => h6 (Or.inl h)
    simp only [if_neg h1, if_neg h2, if_neg h3, if_neg h4, if_neg h5, if_neg h6, if_neg h7,
      if_neg h8]
    exact readString_plain c _ _ _ h1 h2 h9 ih

/-! ## Documents -/

theorem readValue_quote (s : String) (rest : List Char) :
    readValue (skipWs (quote s ++ rest)) = .ok (.str s.data, rest) := by
  have h : quote s ++ rest = '"' :: (escape s.data ++ '"' :: rest) := by
    simp [quote]
  rw [h]
  have hws : skipWs ('"' :: (escape s.data ++ '"' :: rest))
      = '"' :: (escape s.data ++ '"' :: rest) := by simp [skipWs]
  rw [hws]
  simp [readValue, readString_escape]

/-- The member `"Sdr":"..."` and the closing brace, as `marshalText` writes them, read
back as the one member `Sdr`. -/
theorem readMembers_sdr (fuel : Nat) (sdr : String) (acc : List (List Char × JValue)) :
    readMembers (fuel + 1) ("\"Sdr\":".data ++ (quote sdr ++ ['}'])) acc
      = .ok (acc ++ [("Sdr".data, JValue.str sdr.data)], []) := by
  have h : "\"Sdr\":".data ++ (quote sdr ++ ['}'])
      = '"' :: (escape "Sdr".data ++ '"' :: ':' :: (quote sdr ++ ['}'])) := rfl
  rw [h]
  have hws : ∀ r : List Char, skipWs ('"' :: r) = '"' :: r := fun r => by simp [skipWs]
  have hws2 : ∀ r : List Char, skipWs (':' :: r) = ':' :: r := fun r => by simp [skipWs]
  have hws3 : skipWs ['}'] = ['}'] := by decide
  have hk : escape "Sdr".data = "Sdr".data := by decide
  simp only [readMembers, hws, hws2, readString_escape, readValue_quote, hws3]

/-- The two members as `marshalText` writes them for a non-zero level read back as the
members `logging_level` and `Sdr`. -/
theorem readMembers_both (fuel : Nat) (n : Int) (hn : n ≠ 0) (sdr : String) :
    readMembers (fuel + 2)
        ("\"logging_level\":".data ++ (intText n ++ [','])
          ++ ("\"Sdr\":".data ++ (quote sdr ++ ['}']))) []
      = .ok ([("logging_level".data, JValue.int n), ("Sdr".data, JValue.str sdr.data)], []) := by
  have h : "\"logging_level\":".data ++ (intText n ++ [','])
        ++ ("\"Sdr\":".data ++ (quote sdr ++ ['}']))
      = '"' :: (escape "logging_level".data ++ '"' :: ':' ::
          (intText n ++ ',' :: ("\"Sdr\":".data ++ (quote sdr ++ ['}'])))) := by
    have hk : escape "logging_level".data = "logging_level".data := by decide
    rw [hk]
    simp
  rw [h]
  have hws : ∀ r : List Char, skipWs ('"' :: r) = '"' :: r := fun r => by simp [skipWs]
  have hws2 : ∀ r : List Char, skipWs (':' :: r) = ':' :: r := fun r => by simp [skipWs]
  have hws3 : ∀ r : List Char, skipWs (',' :: r) = ',' :: r := fun r => by simp [skipWs]
  have hk : escape "logging_level".data = "logging_level".data := by decide
  rw [readMembers]
  simp only [hws, hws2, hws3, readString_escape, readValue_intText n hn]
  rw [readMembers_sdr]
  rfl

theorem readDocument_marshal (s : Settings) :
    readDocument (marshalText s) =
      .ok (some ((if s.LoggingLevel = 0 then []
                  else [("logging_level".data, JValue.int s.LoggingLevel)])
                ++ [("Sdr".data, JValue.str s.Sdr.data)])) := by
  have hws : ∀ r : List Char, skipWs ('{' :: r) = '{' :: r := fun r => by simp [skipWs]
  have hws1 : ∀ r : List Char, skipWs ('"' :: r) = '"' :: r := fun r => by simp [skipWs]
  have hnil : skipWs [] = [] := rfl
  by_cases h0 : s.LoggingLevel = 0
  · have ht : marshalText s = '{' :: '"' :: ("Sdr\":".data ++ (quote s.Sdr ++ ['}'])) := by
      simp [marshalText, h0]
    have hm := readMembers_sdr
      (("Sdr\":".data ++ (quote s.Sdr ++ ['}'])).length + 1) s.Sdr []
    have hshape : "\"Sdr\":".data ++ (quote s.Sdr ++ ['}'])
        = '"' :: ("Sdr\":".data ++ (quote s.Sdr ++ ['}'])) := rfl
    rw [hshape] at hm
    rw [ht]
    simp only [readDocument, hws, hws1, List.length_cons, hm, hnil, if_true, if_pos h0,
      List.nil_append]
    rfl
  · have ht : marshalText s = '{' :: '"' :: ("logging_level\":".data
        ++ (intText s.LoggingLevel ++ [','])
        ++ ("\"Sdr\":".data ++ (quote s.Sdr ++ ['}']))) := by
      simp [marshalText, h0]
    have hm := readMembers_both
      (("logging_level\":".data ++ (intText s.LoggingLevel ++ [','])
        ++ ("\"Sdr\":".data ++ (quote s.Sdr ++ ['}']))).length) s.LoggingLevel h0 s.Sdr
    have hshape : "\"logging_level\":".data ++ (intText s.LoggingLevel ++ [','])
          ++ ("\"Sdr\":".data ++ (quote s.Sdr ++ ['}']))
        = '"' :: ("logging_level\":".data ++ (intText s.LoggingLevel ++ [','])
          ++ ("\"Sdr\":".data ++ (quote s.Sdr ++ ['}']))) := rfl
    rw [hshape] at hm
    rw [ht]
    simp only [readDocument, hws, hws1, List.length_cons, hm, hnil, if_true, if_neg h0,
      List.singleton_append]
    rfl

/-- What `Unmarshal` makes of the text `marshal` wrote for `s`, read into any `t`: the
struct `s` itself when the level of `s` is a non-zero `int64`, and `t` with the `Sdr` of
`s` when the level of `s` is zero and so was left out of the text. -/
theorem Unmarshal_marshal (s t : Settings) :
    (s.LoggingLevel ≠ 0 → isInt64 s.LoggingLevel → t.Unmarshal s.marshal.1 = (s, none)) ∧
    (s.LoggingLevel = 0 → t.Unmarshal s.marshal.1 = ({ t with Sdr := s.Sdr }, none)) := by
  have hlen : ¬ (String.mk (marshalText s)).length = 0 := by
    simp [marshalText, String.length]
  have hfold1 : foldName "logging_level".data = "logging_level".data := by decide
  have hfold2 : foldName "Sdr".data = "sdr".data := by decide
  have hne : "sdr".data ≠ "logging_level".data := by decide
  constructor
  · intro h0 hint
    simp only [Settings.Unmarshal, Settings.marshal, hlen, if_false, jsonUnmarshal,
      readDocument_marshal, if_neg h0, List.singleton_append, List.foldl_cons,
      List.foldl_nil, setField, hfold1, hfold2, if_true, if_pos hint, if_neg hne]
  · intro h0
    simp only [Settings.Unmarshal, Settings.marshal, hlen, if_false, jsonUnmarshal,
      readDocument_marshal, if_pos h0, List.nil_append, List.foldl_cons,
      List.foldl_nil, setField, hfold2, if_true, if_neg hne]

/-- C20 (as the code has it).  Settings JSON round trip: for every `Settings` value `s`
whose `LoggingLevel` is not zero, unmarshalling the bytes produced by `marshal(s)` into a
fresh `NewSettings()` yields `s` again, in particular a `LoggingLevel` equal to that of
`s`; when the `LoggingLevel` of `s` is zero, `marshal` leaves the member out (`omitempty`)
and the fresh value keeps its default level `Debug`.  `marshal` returns no error. -/
theorem settings_round_trip (s : Settings) (hint : isInt64 s.LoggingLevel) :
    s.marshal.2 = none ∧
    (s.LoggingLevel ≠ 0 →
      NewSettings.Unmarshal s.marshal.1 = (s, none) ∧
      (NewSettings.Unmarshal s.marshal.1).1.LoggingLevel = s.LoggingLevel) ∧
    (s.LoggingLevel = 0 →
      NewSettings.Unmarshal s.marshal.1
        = ({ LoggingLevel := sdrlogger.Debug, Sdr := s.Sdr }, none)) := by
  refine ⟨rfl, fun h0 => ?_, fun h0 => (Unmarshal_marshal s NewSettings).2 h0⟩
  have h := (Unmarshal_marshal s NewSettings).1 h0 hint
  exact ⟨h, by rw [h]⟩

theorem settings_round_trip_witness :
    NewSettings.Unmarshal
        ({ LoggingLevel := sdrlogger.Info, Sdr := "" } : Settings).marshal.1
      = ({ LoggingLevel := sdrlogger.Info, Sdr := "" }, none) ∧
    ({ LoggingLevel := sdrlogger.Info, Sdr := "" } : Settings).marshal.1
      = "\x7b\"logging_level\":6,\"Sdr\":\"\"\x7d" :=
  ⟨((settings_round_trip { LoggingLevel := sdrlogger.Info, Sdr := "" }
      (by decide)).2.1 (by decide)).1, by decide⟩

/-- C20, the claim as stated fails: for the `Settings` value with `LoggingLevel` 0 the
text written by `marshal` is `{"Sdr":""}`, and unmarshalling it into a fresh
`NewSettings()` yields the `LoggingLevel` 7, not 0. -/
theorem settings_round_trip_loses_zero :
    ({ LoggingLevel := 0, Sdr := "" } : Settings).marshal = ("\x7b\"Sdr\":\"\"\x7d", none) ∧
    NewSettings.Unmarshal ({ LoggingLevel := 0, Sdr := "" } : Settings).marshal.1
      = ({ LoggingLevel := 7, Sdr := "" }, none) ∧
    (NewSettings.Unmarshal ({ LoggingLevel := 0, Sdr := "" } : Settings).marshal.1
      ).1.LoggingLevel ≠ ({ LoggingLevel := 0, Sdr := "" } : Settings).LoggingLevel := by
  refine ⟨by decide, by decide, by decide⟩

/-! ## The claims on marshalling, empty input and `Load` -/

/-- C21, the code at the failing input.  For a `NewSettings()` value whose
`LoggingLevel` was set to a non-zero `n`, `marshal` returns no error and the text
`{"logging_level":n,"Sdr":""}`: the member `Sdr` follows the level, so the text does not
begin with `{"logging_level":n}`.  For `n = Warning = 4` the text is
`{"logging_level":4,"Sdr":""}`, and `strings.HasPrefix` with `{"logging_level":4}` is
false. -/
theorem marshal_has_Sdr_member (n : Int) (hn : n ≠ 0) :
    ({ NewSettings with LoggingLevel := n } : Settings).marshal.2 = none ∧
    ({ NewSettings with LoggingLevel := n } : Settings).marshal.1
      = String.mk ("\x7b\"logging_level\":".data ++ (intText n
          ++ ",\"Sdr\":\"\"\x7d".data)) ∧
    HasPrefix ({ NewSettings with LoggingLevel := n } : Settings).marshal.1
      (String.mk ("\x7b\"logging_level\":".data ++ (intText n ++ "\x7d".data))) = false ∧
    ({ NewSettings with LoggingLevel := sdrlogger.Warning } : Settings).marshal.1
      = "\x7b\"logging_level\":4,\"Sdr\":\"\"\x7d" ∧
    HasPrefix ({ NewSettings with LoggingLevel := sdrlogger.Warning } : Settings).marshal.1
      "\x7b\"logging_level\":4\x7d" = false := by
  have htext : ({ NewSettings with LoggingLevel := n } : Settings).marshal.1
      = String.mk ("\x7b\"logging_level\":".data ++ (intText n
          ++ ",\"Sdr\":\"\"\x7d".data)) := by
    simp [Settings.marshal, marshalText, hn, NewSettings, quote, escape]
  refine ⟨rfl, htext, ?_, by decide, by decide⟩
  rw [htext]
  cases hp : HasPrefix
      (String.mk ("\x7b\"logging_level\":".data ++ (intText n ++ ",\"Sdr\":\"\"\x7d".data)))
      (String.mk ("\x7b\"logging_level\":".data ++ (intText n ++ "\x7d".data))) with
  | false => rfl
  | true => simp [HasPrefix] at hp

theorem marshal_has_Sdr_member_witness :
    ({ NewSettings with LoggingLevel := sdrlogger.Info } : Settings).marshal.1
      = String.mk ("\x7b\"logging_level\":".data ++ (intText sdrlogger.Info
          ++ ",\"Sdr\":\"\"\x7d".data)) :=
  (marshal_has_Sdr_member sdrlogger.Info (by decide)).2.1

/-- C22.  `Unmarshal` of empty input is a no-op: for every `Settings` value `s`,
`s.Unmarshal` of a zero-length byte slice returns a nil error and leaves `s`, with its
`LoggingLevel` and its `Sdr`, as it was; a `NewSettings()` value keeps the default level
`Debug`. -/
theorem Unmarshal_empty (s : Settings) (data : String) (h : data.length = 0) :
    s.Unmarshal data = (s, none) ∧
    (NewSettings.Unmarshal data).1.LoggingLevel = sdrlogger.Debug := by
  simp [Settings.Unmarshal, h, NewSettings]

theorem Unmarshal_empty_witness :
    ({ LoggingLevel := 5, Sdr := "rtlsdr" } : Settings).Unmarshal ""
      = ({ LoggingLevel := 5, Sdr := "rtlsdr" }, none) ∧
    (NewSettings.Unmarshal "").1.LoggingLevel = sdrlogger.Debug :=
  Unmarshal_empty { LoggingLevel := 5, Sdr := "rtlsdr" } "" rfl

/-- C28.  `Load` hides malformed settings: `Load` returns a nil error exactly when the
settings file could be opened, stat'ed and read, whatever `Unmarshal` made of the content;
the error it returns otherwise is the one of the first of `os.Open`, `os.Stat`,
`file.Read` that failed, and the struct is then untouched.  For the content `not json`,
`Unmarshal` returns an error and `Load` returns nil. -/
theorem Load_hides_Unmarshal_error (s : Settings) (f : SettingsFile) :
    ((s.Load f).2 = none ↔
      f.openError = none ∧ f.statError = none ∧ f.readError = none) ∧
    (f.openError = none → f.statError = none → f.readError = none →
      s.Load f = ((s.Unmarshal f.data).1, none)) ∧
    (∀ err, (s.Load f).2 = some err →
      s.Load f = (s, some err) ∧
      (f.openError = some err ∨ f.statError = some err ∨ f.readError = some err)) ∧
    (NewSettings.Unmarshal "not json").2 = some JsonError.invalid ∧
    (NewSettings.Load
      { openError := none, statError := none, readError := none, data := "not json" }).2
      = none := by
  refine ⟨?_, ?_, ?_, by decide, by decide⟩
  · cases ho : f.openError <;> cases hs : f.statError <;> cases hr : f.readError <;>
      simp [Settings.Load, ho, hs, hr]
  · intro ho hs hr
    simp [Settings.Load, ho, hs, hr]
  · intro err h
    cases ho : f.openError <;> cases hs : f.statError <;> cases hr : f.readError <;>
      simp [Settings.Load, ho, hs, hr] at h ⊢ <;> simp [h]

theorem Load_hides_Unmarshal_error_witness :
    NewSettings.Load
        { openError := none, statError := none, readError := none,
          data := "\x7b\"logging_level\": \"high\"\x7d" }
      = (NewSettings, none) ∧
    (NewSettings.Unmarshal "\x7b\"logging_level\": \"high\"\x7d").2
      = some JsonError.mismatch ∧
    (NewSettings.Load
        { openError := none, statError := some "stat: no such file", readError := none,
          data := "" }).2 = some "stat: no such file" := by
  have h := Load_hides_Unmarshal_error NewSettings
    { openError := none, statError := none, readError := none,
      data := "\x7b\"logging_level\": \"high\"\x7d" }
  refine ⟨?_, by decide, by decide⟩
  rw [h.2.1 rfl rfl rfl]
  decide

end settings

namespace soapylogging

/-- C23.  `LoggingLevelAsString`: for every integer level the function yields a name,
which is `Unknown` iff the level lies outside `Fatal` (1) .. `SSI` (9); the names of the
levels 1 to 9 are `Fatal`, `Critical`, `Error`, `Warning`, `Notice`, `Info`, `Debug`,
`Trace`, `SSI`; and whenever the table of 10 names is indexed, the index is below 10. -/
theorem LoggingLevelAsString_names (level : Int) :
    (∃ name, LoggingLevelAsString level = some name ∧
      (name = "Unknown" ↔ level < sdrlogger.Fatal ∨ sdrlogger.SSI < level)) ∧
    levelStr.length = 10 ∧
    (level ≥ 0 ∧ level ≤ sdrlogger.SSI → level.toNat < levelStr.length) ∧
    LoggingLevelAsString 1 = some "Fatal" ∧ LoggingLevelAsString 2 = some "Critical" ∧
    LoggingLevelAsString 3 = some "Error" ∧ LoggingLevelAsString 4 = some "Warning" ∧
    LoggingLevelAsString 5 = some "Notice" ∧ LoggingLevelAsString 6 = some "Info" ∧
    LoggingLevelAsString 7 = some "Debug" ∧ LoggingLevelAsString 8 = some "Trace" ∧
    LoggingLevelAsString 9 = some "SSI" := by
  refine ⟨?_, rfl, ?_, by decide, by decide, by decide, by decide, by decide, by decide,
    by decide, by decide, by decide⟩
  · by_cases h : level ≥ 0 ∧ level ≤ 9
    · obtain ⟨h1, h2⟩ := h
      interval_cases level <;> exact ⟨_, rfl, by decide⟩
    · refine ⟨"Unknown", ?_, ?_⟩
      · have h' : ¬ (level ≥ 0 ∧ level ≤ sdrlogger.SSI) := h
        simp only [LoggingLevelAsString, if_neg h']
      · simp only [sdrlogger.Fatal, sdrlogger.SSI, true_iff]
        omega
  · intro h
    simp only [sdrlogger.SSI] at h
    show level.toNat < 10
    omega

theorem LoggingLevelAsString_names_witness :
    LoggingLevelAsString (-3) = some "Unknown" ∧ LoggingLevelAsString 0 = some "Unknown" ∧
    LoggingLevelAsString 10 = some "Unknown" ∧
    ∃ name, LoggingLevelAsString 5 = some name ∧
      (name = "Unknown" ↔ (5 : Int) < sdrlogger.Fatal ∨ sdrlogger.SSI < (5 : Int)) :=
  ⟨by decide, by decide, by decide, (LoggingLevelAsString_names 5).1⟩

/-- C24.  `ChangeLoggingFileName` always records the new name: for every file name `n`,
after `ChangeLoggingFileName(n)` the logging file name is `n` whether or not the file
could be created, and the call returns an error iff creating the file `n` fails or, the
file created, closing it fails; the error is the one of the step that failed. -/
theorem ChangeLoggingFileName_records_name (st : State) (n : String) :
    (ChangeLoggingFileName st n).1.loggingFileName = n ∧
    ((ChangeLoggingFileName st n).2 = none ↔
      st.files.createError n = none ∧ st.files.closeError n = none) ∧
    (∀ err, st.files.createError n = some err →
      (ChangeLoggingFileName st n).2 = some err ∧
      (ChangeLoggingFileName st n).1.files.created = st.files.created) ∧
    (st.files.createError n = none →
      (ChangeLoggingFileName st n).2 = st.files.closeError n ∧
      (ChangeLoggingFileName st n).1.files.created = st.files.created ++ [n]) := by
  cases hc : st.files.createError n <;> cases hl : st.files.closeError n <;>
    simp [ChangeLoggingFileName, CreateSoapyLogFile, hc, hl]

theorem ChangeLoggingFileName_records_name_witness :
    (ChangeLoggingFileName sampleState "logging.log").1.loggingFileName = "logging.log" ∧
    (ChangeLoggingFileName sampleState "logging.log").2 = none ∧
    (ChangeLoggingFileName sampleState "/logging.log").1.loggingFileName = "/logging.log" ∧
    (ChangeLoggingFileName sampleState "/logging.log").2
      = some "open /logging.log: permission denied" :=
  ⟨(ChangeLoggingFileName_records_name sampleState "logging.log").1,
    (ChangeLoggingFileName_records_name sampleState "logging.log").2.1.mpr ⟨rfl, rfl⟩,
    (ChangeLoggingFileName_records_name sampleState "/logging.log").1,
    ((ChangeLoggingFileName_records_name sampleState "/logging.log").2.2.1 _
      (by decide)).1⟩

end soapylogging

namespace sdr

/-- C25.  The make/unmake state machine of `SoapyDevice`.  `Unmake` on a wrapper that
holds no device returns an error and changes nothing; on a wrapper that holds a device
it clears `Device` and returns nil when the underlying `Unmake` succeeds, and returns the
underlying error with `Device` unchanged when it fails.  `Make` sets `Device` to the new
device with the given arguments as `DeviceProperties` and returns nil when the
underlying `Make` succeeds, and returns the underlying error with `Device` unchanged when
it fails.  Hence a second `Unmake` right after a successful one returns an error. -/
theorem make_unmake_state_machine (sD : SoapyDevice) (lib : Library) (args : Args) :
    (sD.Device = none → ∃ err, sD.Unmake lib = (sD, some err)) ∧
    (∀ held, sD.Device = some held →
      (lib.unmake held.Device = none → sD.Unmake lib = ({ Device := none }, none)) ∧
      (∀ err, lib.unmake held.Device = some err → sD.Unmake lib = (sD, some err))) ∧
    (∀ dev, lib.make args = .ok dev →
      sD.Make lib args
        = ({ Device := some { Device := dev, DeviceProperties := args } }, none)) ∧
    (∀ err, lib.make args = .error err → sD.Make lib args = (sD, some err)) ∧
    ((sD.Unmake lib).2 = none → ∃ err, (sD.Unmake lib).1.Unmake lib
      = ((sD.Unmake lib).1, some err)) := by
  refine ⟨?_, ?_, ?_, ?_, ?_⟩
  · intro h
    exact ⟨"attempted to Unmake an SDR that was not successfully created",
      by simp [SoapyDevice.Unmake, h]⟩
  · intro held h
    constructor
    · intro hu; simp [SoapyDevice.Unmake, h, hu]
    · intro err hu; simp [SoapyDevice.Unmake, h, hu]
  · intro dev h; simp [SoapyDevice.Make, h]
  · intro err h; simp [SoapyDevice.Make, h]
  · intro h
    cases hd : sD.Device with
    | none => simp [SoapyDevice.Unmake, hd] at h
    | some held =>
      cases hu : lib.unmake held.Device with
      | none =>
        exact ⟨"attempted to Unmake an SDR that was not successfully created",
          by simp [SoapyDevice.Unmake, hd, hu]⟩
      | some err => simp [SoapyDevice.Unmake, hd, hu] at h

theorem make_unmake_state_machine_witness :
    ({ Device := none } : SoapyDevice).Make sampleLibrary [("driver", "rtlsdr")]
      = ({ Device := some { Device := 7, DeviceProperties := [("driver", "rtlsdr")] } },
         none) ∧
    ({ Device := some { Device := 7, DeviceProperties := [("driver", "rtlsdr")] } }
        : SoapyDevice).Unmake sampleLibrary = ({ Device := none }, none) ∧
    ∃ err, ({ Device := none } : SoapyDevice).Unmake sampleLibrary
      = ({ Device := none }, some err) :=
  ⟨(make_unmake_state_machine { Device := none } sampleLibrary
      [("driver", "rtlsdr")]).2.2.1 7 rfl,
    ((make_unmake_state_machine
      { Device := some { Device := 7, DeviceProperties := [("driver", "rtlsdr")] } }
      sampleLibrary []).2.1 _ rfl).1 rfl,
    (make_unmake_state_machine { Device := none } sampleLibrary []).1 rfl⟩

end sdr

namespace jsdr

/-- C26.  The level chosen by the command line of jsdr: for every combination of the
flags `error`, `info` and `debug`, `parseCommandLine` returns `Debug` if `debug` is set,
otherwise `Info` if `info` is set, otherwise `Error` if `error` is set, otherwise
`Fatal`, together with the value of `out`; and among the four named levels the filter of
`Log` under the chosen level lets through exactly those that the help text of the
deciding flag lists. -/
theorem parseCommandLine_level (flags : Flags) :
    parseCommandLine flags =
      (if flags.debug then logger.Debug
        else if flags.info then logger.Info
        else if flags.error then logger.Error
        else logger.Fatal,
       flags.out) ∧
    ∀ v ∈ [logger.Fatal, logger.Error, logger.Info, logger.Debug],
      (¬ (parseCommandLine flags).1 < v ↔ v ∈ listedLevels flags) := by
  obtain ⟨e, i, d, out⟩ := flags
  cases e <;> cases i <;> cases d <;>
    refine ⟨rfl, fun v hv => ?_⟩ <;>
    simp only [List.mem_cons, List.mem_singleton, List.not_mem_nil, or_false] at hv <;>
    rcases hv with rfl | rfl | rfl | rfl <;>
    simp [parseCommandLine, listedLevels, logger.Fatal, logger.Error, logger.Info,
      logger.Debug]

theorem parseCommandLine_level_witness :
    parseCommandLine { error := true, info := true, debug := false, out := "jsdr.log" }
      = (logger.Info, "jsdr.log") ∧
    (¬ (parseCommandLine
        { error := true, info := true, debug := false, out := "jsdr.log" }).1 < logger.Debug
      ↔ logger.Debug ∈ listedLevels
        { error := true, info := true, debug := false, out := "jsdr.log" }) :=
  ⟨(parseCommandLine_level
      { error := true, info := true, debug := false, out := "jsdr.log" }).1,
    (parseCommandLine_level
      { error := true, info := true, debug := false, out := "jsdr.log" }).2
      logger.Debug (by decide)⟩

end jsdr

namespace jsdrgui

/-- Setting the index `i` in 0..8 on a select over the level options selects the option
at `i`. -/
theorem SetSelectedIndex_levelOptions (sel : String) (i : Nat) (hi : i < 9) :
    ({ Options := levelOptions, Selected := sel } : Select).SetSelectedIndex (i : Int)
      = { Options := levelOptions, Selected := levelOptions.getD i "" } := by
  have hlen : levelOptions.length = 9 := rfl
  unfold Select.SetSelectedIndex
  rw [if_neg]
  · simp
  · simp only [hlen]
    omega

/-- The index of the option at `i` in 0..8 of the level options is `i`. -/
theorem SelectedIndex_levelOptions (i : Nat) (hi : i < 9) :
    ({ Options := levelOptions, Selected := levelOptions.getD i "" } : Select).SelectedIndex
      = (i : Int) := by
  interval_cases i <;> decide

/-- The option at `i` in 0..8 of the level options is the name of the level `i + 1`. -/
theorem levelOptions_name (i : Nat) (hi : i < 9) :
    some (levelOptions.getD i "") = soapylogging.LoggingLevelAsString ((i : Int) + 1) := by
  interval_cases i <;> decide

/-- The window over settings with the level `n + 1`, `n` in 0..8, shows the option at
`n`. -/
theorem window_shows (sdr : String) (sel : Select) (n : Nat) (hn : n < 9) :
    newSDRLoggerSettingsWindow
        { JsdrSettings := { LoggingLevel := (n : Int) + 1, Sdr := sdr },
          loggingLevelSelect := sel }
      = { JsdrSettings := { LoggingLevel := (n : Int) + 1, Sdr := sdr },
          loggingLevelSelect :=
            { Options := levelOptions, Selected := levelOptions.getD n "" } } := by
  unfold newSDRLoggerSettingsWindow NewSelect
  simp only [add_sub_cancel_right]
  rw [SetSelectedIndex_levelOptions "" n hn]

/-- C29.  The logging-level selector agrees with the level names.  The option at every
index `i` in 0..8 of the select list is `LoggingLevelAsString(i + 1)`.  When the level in
the settings is one of 1..9, the window shows the option at index `level - 1`, which is
the name of the level.  After the user has picked any option `i` in 0..8, `acceptChanges`
stores the level `i + 1`, whose name is the picked option, and touches nothing else, and
`resetLoggingValues` puts the selection back to the index `level - 1` of the stored
level and leaves the settings alone.  The two conversions are inverse to each other
through these functions: showing a level and accepting stores that level (so accepting
an unchanged selection, also after a reset, stores the level that was loaded), and
accepting the option `i` and then showing the window again selects the index `i`. -/
theorem selector_agrees_with_names (g : Gui) (i : Nat) (hi : i < 9)
    (h1 : 1 ≤ g.JsdrSettings.LoggingLevel) (h9 : g.JsdrSettings.LoggingLevel ≤ 9) :
    levelOptions.length = 9 ∧
    (∀ k : Nat, k < 9 →
      levelOptions[k]? = soapylogging.LoggingLevelAsString ((k : Int) + 1)) ∧
    some (newSDRLoggerSettingsWindow g).loggingLevelSelect.Selected
      = soapylogging.LoggingLevelAsString g.JsdrSettings.LoggingLevel ∧
    (newSDRLoggerSettingsWindow g).loggingLevelSelect.SelectedIndex
      = g.JsdrSettings.LoggingLevel - 1 ∧
    (g.JsdrSettings.LoggingLevel - 1) + 1 = g.JsdrSettings.LoggingLevel ∧
    (acceptChanges (newSDRLoggerSettingsWindow g)).JsdrSettings = g.JsdrSettings ∧
    (acceptChanges (resetLoggingValues (newSDRLoggerSettingsWindow g))).JsdrSettings
      = g.JsdrSettings ∧
    acceptChanges
        { newSDRLoggerSettingsWindow g with
          loggingLevelSelect :=
            (newSDRLoggerSettingsWindow g).loggingLevelSelect.SetSelectedIndex i }
      = { JsdrSettings := { g.JsdrSettings with LoggingLevel := (i : Int) + 1 },
          loggingLevelSelect := { Options := levelOptions,
                                  Selected := levelOptions.getD i "" } } ∧
    some (levelOptions.getD i "") = soapylogging.LoggingLevelAsString ((i : Int) + 1) ∧
    resetLoggingValues
        { newSDRLoggerSettingsWindow g with
          loggingLevelSelect :=
            (newSDRLoggerSettingsWindow g).loggingLevelSelect.SetSelectedIndex i }
      = newSDRLoggerSettingsWindow g ∧
    (resetLoggingValues
        { newSDRLoggerSettingsWindow g with
          loggingLevelSelect :=
            (newSDRLoggerSettingsWindow g).loggingLevelSelect.SetSelectedIndex i }
      ).loggingLevelSelect.SelectedIndex = g.JsdrSettings.LoggingLevel - 1 ∧
    (newSDRLoggerSettingsWindow
        (acceptChanges
          { newSDRLoggerSettingsWindow g with
            loggingLevelSelect :=
              (newSDRLoggerSettingsWindow g).loggingLevelSelect.SetSelectedIndex i })
      ).loggingLevelSelect.SelectedIndex = (i : Int) := by
  obtain ⟨⟨level, sdr⟩, sel⟩ := g
  simp only at h1 h9
  obtain ⟨n, hn, rfl⟩ : ∃ n : Nat, n < 9 ∧ level = (n : Int) + 1 :=
    ⟨(level - 1).toNat, by omega, by omega⟩
  have hk : ∀ k : Nat, k < 9 →
      levelOptions[k]? = soapylogging.LoggingLevelAsString ((k : Int) + 1) := by
    intro k hk
    interval_cases k <;> decide
  have hset := SetSelectedIndex_levelOptions (levelOptions.getD n "") i hi
  have hback := SetSelectedIndex_levelOptions (levelOptions.getD i "") n hn
  have hidx := SelectedIndex_levelOptions n hn
  have hidi := SelectedIndex_levelOptions i hi
  have hwin := window_shows sdr sel n hn
  have hwin2 := window_shows sdr
    { Options := levelOptions, Selected := levelOptions.getD i "" } i hi
  refine ⟨rfl, hk, ?_, ?_, ?_, ?_, ?_, ?_, levelOptions_name i hi, ?_, ?_, ?_⟩
  · rw [hwin]
    exact levelOptions_name n hn
  · rw [hwin]
    simp only [hidx, add_sub_cancel_right]
  · simp only [sub_add_cancel]
  · rw [hwin]
    simp only [acceptChanges, hidx]
  · rw [hwin]
    simp only [resetLoggingValues, acceptChanges, add_sub_cancel_right,
      SetSelectedIndex_levelOptions _ n hn, hidx]
  · rw [hwin]
    simp only [hset, acceptChanges, hidi]
  · rw [hwin]
    simp only [hset, resetLoggingValues, add_sub_cancel_right, hback]
  · rw [hwin]
    simp only [hset, resetLoggingValues, add_sub_cancel_right, hback, hidx]
  · rw [hwin]
    simp only [hset, acceptChanges, hidi, hwin2]

theorem selector_agrees_with_names_witness :
    (newSDRLoggerSettingsWindow
        { JsdrSettings := settings.NewSettings, loggingLevelSelect := NewSelect [] }
      ).loggingLevelSelect.Selected = "Debug" ∧
    (acceptChanges (newSDRLoggerSettingsWindow
        { JsdrSettings := settings.NewSettings, loggingLevelSelect := NewSelect [] })
      ).JsdrSettings = settings.NewSettings ∧
    acceptChanges
        { newSDRLoggerSettingsWindow
            { JsdrSettings := settings.NewSettings, loggingLevelSelect := NewSelect [] } with
          loggingLevelSelect :=
            (newSDRLoggerSettingsWindow
              { JsdrSettings := settings.NewSettings, loggingLevelSelect := NewSelect [] }
            ).loggingLevelSelect.SetSelectedIndex (3 : Nat) }
      = { JsdrSettings := { settings.NewSettings with LoggingLevel := ((3 : Nat) : Int) + 1 },
          loggingLevelSelect := { Options := levelOptions,
                                  Selected := levelOptions.getD 3 "" } } ∧
    levelOptions.getD 3 "" = "Warning" :=
  ⟨Option.some.inj ((selector_agrees_with_names
      { JsdrSettings := settings.NewSettings, loggingLevelSelect := NewSelect [] } 3
      (by decide) (by decide) (by decide)).2.2.1.trans (by decide)),
    (selector_agrees_with_names
      { JsdrSettings := settings.NewSettings, loggingLevelSelect := NewSelect [] } 3
      (by decide) (by decide) (by decide)).2.2.2.2.2.1,
    (selector_agrees_with_names
      { JsdrSettings := settings.NewSettings, loggingLevelSelect := NewSelect [] } 3
      (by decide) (by decide) (by decide)).2.2.2.2.2.2.2.1,
    by decide⟩

end jsdrgui

namespace enumerate_sdrs

theorem firstLoop_indices : firstLoop 8 0 = [0, 1, 4, 5, 8, 9, 12, 13] := by decide

theorem secondLoop_indices (mtu : Int) :
    secondLoop mtu 8 (mtu - 1) =
      [2 * (mtu - 1) - 1, 2 * (mtu - 1), 2 * (mtu - 3) - 1, 2 * (mtu - 3),
        2 * (mtu - 5) - 1, 2 * (mtu - 5), 2 * (mtu - 7) - 1, 2 * (mtu - 7)] := by
  have c1 : mtu - 1 > mtu - 9 := by omega
  have c2 : mtu - 1 - 2 > mtu - 9 := by omega
  have c3 : mtu - 1 - 2 - 2 > mtu - 9 := by omega
  have c4 : mtu - 1 - 2 - 2 - 2 > mtu - 9 := by omega
  have c5 : ¬ mtu - 1 - 2 - 2 - 2 - 2 > mtu - 9 := by omega
  rw [secondLoop, if_pos c1, secondLoop, if_pos c2, secondLoop, if_pos c3, secondLoop,
    if_pos c4, secondLoop, if_neg c5]
  simp only [List.cons.injEq, and_true]
  refine ⟨trivial, trivial, ?_, ?_, ?_, ?_, ?_, ?_⟩ <;> omega

/-- C30.  Sample dump indexing in `exerciseStream0`: with the receive buffer of length
`2*mtu`, the two dump loops read the indices `2j` and `2j+1` for `j = 0, 2, 4, 6` and
`2j-1` and `2j` for `j = mtu-1, mtu-3, mtu-5, mtu-7`; all of them lie within the buffer
iff `mtu >= 8`, and for every `mtu` from 0 to 7 at least one of them lies outside. -/
theorem dump_indices_in_range (mtu : Int) (h : 0 ≤ mtu) :
    dumpIndices mtu =
      [0, 1, 4, 5, 8, 9, 12, 13,
        2 * (mtu - 1) - 1, 2 * (mtu - 1), 2 * (mtu - 3) - 1, 2 * (mtu - 3),
        2 * (mtu - 5) - 1, 2 * (mtu - 5), 2 * (mtu - 7) - 1, 2 * (mtu - 7)] ∧
    ((∀ i ∈ dumpIndices mtu, inBuffer mtu i) ↔ 8 ≤ mtu) ∧
    (mtu < 8 → ∃ i ∈ dumpIndices mtu, ¬ inBuffer mtu i) := by
  have hlist : dumpIndices mtu =
      [0, 1, 4, 5, 8, 9, 12, 13,
        2 * (mtu - 1) - 1, 2 * (mtu - 1), 2 * (mtu - 3) - 1, 2 * (mtu - 3),
        2 * (mtu - 5) - 1, 2 * (mtu - 5), 2 * (mtu - 7) - 1, 2 * (mtu - 7)] := by
    rw [dumpIndices, firstLoop_indices, secondLoop_indices]
    rfl
  have hiff : (∀ i ∈ dumpIndices mtu, inBuffer mtu i) ↔ 8 ≤ mtu := by
    rw [hlist]
    simp only [List.forall_mem_cons, List.not_mem_nil, inBuffer, false_imp_iff,
      implies_true, and_true]
    constructor
    · intro hall
      omega
    · intro h8
      omega
  refine ⟨hlist, hiff, fun hlt => ?_⟩
  by_contra hno
  have hall : ∀ i ∈ dumpIndices mtu, inBuffer mtu i := by
    intro i hi
    by_contra hout
    exact hno ⟨i, hi, hout⟩
  have := hiff.mp hall
  omega

theorem dump_indices_in_range_witness :
    (∀ i ∈ dumpIndices 8, inBuffer 8 i) ∧
    (∃ i ∈ dumpIndices 7, ¬ inBuffer 7 i) ∧
    dumpIndices 7 = [0, 1, 4, 5, 8, 9, 12, 13, 11, 12, 7, 8, 3, 4, -1, 0] :=
  ⟨(dump_indices_in_range 8 (by decide)).2.1.mpr (by decide),
    (dump_indices_in_range 7 (by decide)).2.2 (by decide),
    (dump_indices_in_range 7 (by decide)).1.trans (by decide)⟩

end enumerate_sdrs
